import Mathlib

/-!
# Turn-notification text for voice guidance (`routing/turns_tts_text.cpp`)

A shallow embedding of the text-id resolvers, the distance quantizer, the
road-name formatter, the Hungarian categorizer, the sentence assembler
`GetTtsText::GetTurnNotification` and its final cleanup pass, followed by the
properties proved about them.

Conventions of the embedding

* `std::string` keys and texts are `String`; `empty()` is `= ""`.
* `uint32_t` values are `Nat`; subtraction and multiplication wrap modulo `2 ^ 32`
  exactly where the source computes in `uint32_t`.
* `ASSERT(false, ...)` is the release-build no-op: the function goes on to the
  `return {}` that follows it.
* The byte-wise `std::regex` passes run over `List Char`, one `Char` per code unit;
  the three patterns only mention ASCII characters.
* A `strings::UniString` is the `List Char` of a text, `myString.size()` is the
  number of bytes of its UTF-8 form, and `rHun` is matched against those bytes.
* Functions that the source takes from other files are parameters (`Collaborators`)
  or are modelled from the specification, which their comment then says.
-/

namespace routing
namespace turns
namespace sound

/-! ## Distance quantizer -/

/-- Width of `uint32_t` arithmetic. -/
def kUint32Modulus : Nat := 2 ^ 32

/-- Subtraction `a - b` in `uint32_t`. -/
def sub32 (a b : Nat) : Nat :=
  (a % kUint32Modulus + kUint32Modulus - b % kUint32Modulus) % kUint32Modulus

/-- Multiplication `a * b` in `uint32_t`. -/
def mul32 (a b : Nat) : Nat :=
  (a * b) % kUint32Modulus

/-- The position returned by
`std::lower_bound(begin, end, dist, [](auto const & p1, uint32_t p2) { return p1.first < p2; })`:
the furthermost position such that every entry before it compares below `dist`. -/
def lower_bound (table : List (Nat × String)) (dist : Nat) : Nat :=
  (table.takeWhile (fun p1 => decide (p1.1 < dist))).length

/-- Embedding of `DistToTextId(begin, end, dist)`; `table` is the range `[begin, end)`. -/
def DistToTextId (table : List (Nat × String)) (dist : Nat) : String :=
  let it := lower_bound table dist
  match table[it]? with
  | none => ""
  | some cur =>
    if it ≠ 0 then
      match table[it - 1]? with
      | some iPrev =>
        if mul32 (sub32 dist iPrev.1) 2 < sub32 cur.1 dist then iPrev.2 else cur.2
      | none => cur.2
    else cur.2

/-! ## Notifications -/

/-- Vehicle maneuvers (`CarDirection`), the enumerators the source switches over. -/
inductive CarDirection where
  | None
  | GoStraight
  | TurnRight
  | TurnSharpRight
  | TurnSlightRight
  | TurnLeft
  | TurnSharpLeft
  | TurnSlightLeft
  | UTurnLeft
  | UTurnRight
  | EnterRoundAbout
  | LeaveRoundAbout
  | StayOnRoundAbout
  | StartAtEndOfStreet
  | ReachedYourDestination
  | ExitHighwayToLeft
  | ExitHighwayToRight
  | Count
  deriving DecidableEq, Repr

/-- Pedestrian maneuvers (`PedestrianDirection`), the enumerators the source switches over. -/
inductive PedestrianDirection where
  | None
  | GoStraight
  | TurnRight
  | TurnLeft
  | ReachedYourDestination
  | Count
  deriving DecidableEq, Repr

/-- Unit systems (`measurement_utils::Units`). -/
inductive Units where
  | Metric
  | Imperial
  deriving DecidableEq, Repr

/-- The fields of `RouteSegment::RoadNameInfo` that the source reads. -/
structure RoadNameInfo where
  m_name : String := ""
  m_destination_ref : String := ""
  m_junction_ref : String := ""
  m_destination : String := ""
  m_ref : String := ""
  deriving DecidableEq, Repr

/-- Modelled from the spec: `RoadNameInfo::HasExitInfo` is declared in a header that is
not part of the sources at hand. Section 3 of the specification: "has exit info" is true
iff junctionReference or destinationReference is non-empty. -/
def RoadNameInfo.HasExitInfo (road : RoadNameInfo) : Bool :=
  decide (road.m_junction_ref ≠ "") || decide (road.m_destination_ref ≠ "")

/-- The fields of `Notification` that the source reads. -/
structure Notification where
  m_distanceUnits : Nat := 0
  m_exitNum : Nat := 0
  m_useThenInsteadOfDistance : Bool := false
  m_turnDir : CarDirection := CarDirection.None
  m_turnDirPedestrian : PedestrianDirection := PedestrianDirection.None
  m_lengthUnits : Units := Units.Metric
  m_nextStreetInfo : RoadNameInfo := {}
  deriving DecidableEq, Repr

/-- Modelled from the spec: `Notification::IsPedestrianNotification` is declared in a
header that is not part of the sources at hand. Section 3 of the specification:
isPedestrian is derived from which arm of the maneuver union is populated, that is,
the vehicle direction is `None` and the pedestrian direction is not. -/
def Notification.IsPedestrianNotification (notification : Notification) : Bool :=
  decide (notification.m_turnDir = CarDirection.None) &&
    decide (notification.m_turnDirPedestrian ≠ PedestrianDirection.None)

/-! ## Text-id resolvers -/

/-- The cap `kMaxSoundedExit` of `GetRoundaboutTextId`. -/
def kMaxSoundedExit : Nat := 11

/-- Embedding of `GetRoundaboutTextId`. -/
def GetRoundaboutTextId (notification : Notification) : String :=
  if notification.m_turnDir ≠ CarDirection.LeaveRoundAbout then
    ""
  else if !notification.m_useThenInsteadOfDistance then
    "leave_the_roundabout"
  else if notification.m_exitNum = 0 ∨ notification.m_exitNum > kMaxSoundedExit then
    "leave_the_roundabout"
  else
    "take_the_" ++ toString notification.m_exitNum ++ "_exit"

/-- Embedding of `GetYouArriveTextId`. -/
def GetYouArriveTextId (notification : Notification) : String :=
  if !notification.IsPedestrianNotification ∧
      notification.m_turnDir ≠ CarDirection.ReachedYourDestination then
    ""
  else if notification.IsPedestrianNotification ∧
      notification.m_turnDirPedestrian ≠ PedestrianDirection.ReachedYourDestination then
    ""
  else if notification.m_distanceUnits ≠ 0 ∨ notification.m_useThenInsteadOfDistance then
    "destination"
  else
    "you_have_reached_the_destination"

/-- Embedding of `GetDirectionTextId`. -/
def GetDirectionTextId (notification : Notification) : String :=
  if notification.IsPedestrianNotification then
    match notification.m_turnDirPedestrian with
    | PedestrianDirection.GoStraight => "go_straight"
    | PedestrianDirection.TurnRight => "make_a_right_turn"
    | PedestrianDirection.TurnLeft => "make_a_left_turn"
    | PedestrianDirection.ReachedYourDestination => GetYouArriveTextId notification
    | PedestrianDirection.None => ""
    | PedestrianDirection.Count => ""
  else
    match notification.m_turnDir with
    | CarDirection.GoStraight => "go_straight"
    | CarDirection.TurnRight => "make_a_right_turn"
    | CarDirection.TurnSharpRight => "make_a_sharp_right_turn"
    | CarDirection.TurnSlightRight => "make_a_slight_right_turn"
    | CarDirection.TurnLeft => "make_a_left_turn"
    | CarDirection.TurnSharpLeft => "make_a_sharp_left_turn"
    | CarDirection.TurnSlightLeft => "make_a_slight_left_turn"
    | CarDirection.UTurnLeft => "make_a_u_turn"
    | CarDirection.UTurnRight => "make_a_u_turn"
    | CarDirection.EnterRoundAbout => "enter_the_roundabout"
    | CarDirection.LeaveRoundAbout => GetRoundaboutTextId notification
    | CarDirection.ReachedYourDestination => GetYouArriveTextId notification
    | CarDirection.ExitHighwayToLeft => "exit"
    | CarDirection.ExitHighwayToRight => "exit"
    | CarDirection.StayOnRoundAbout => ""
    | CarDirection.StartAtEndOfStreet => ""
    | CarDirection.None => ""
    | CarDirection.Count => ""

/-- A then-phrased notification for leaving a roundabout at its third exit. -/
def exampleTakeThirdExit : Notification :=
  { m_turnDir := CarDirection.LeaveRoundAbout, m_useThenInsteadOfDistance := true, m_exitNum := 3 }

/-- A vehicle notification at the destination itself: distance 0, no then-phrasing. -/
def exampleArrived : Notification :=
  { m_turnDir := CarDirection.ReachedYourDestination }

/-- A vehicle notification of the destination 50 units ahead. -/
def exampleArriveIn50 : Notification :=
  { m_turnDir := CarDirection.ReachedYourDestination, m_distanceUnits := 50 }

/-! ## Road-name formatter -/

/-- The tail of `FormatFullRoadName`: every element of `outArr` but the last is appended
to `name` followed by the delimiter, then the last element is appended bare; nothing
is appended when `outArr` is empty. -/
def appendWithDelimiter (name : String) (outArr : List String) : String :=
  match outArr.getLast? with
  | none => name
  | some last => outArr.dropLast.foldl (fun acc part => acc ++ (part ++ "; ")) name ++ last

/-- Embedding of `FormatFullRoadName(road, name)`; the result is the string written to
`name`. `GetRoadShields ref` lists the names of the shields parsed from `ref`
(`ftypes::GetRoadShields`, an external collaborator). -/
def FormatFullRoadName (GetRoadShields : String → List String) (road : RoadNameInfo) : String :=
  let road1 : RoadNameInfo :=
    match GetRoadShields road.m_ref with
    | [] => road
    | sh0 :: _ => { road with m_ref := sh0 }
  let road2 : RoadNameInfo :=
    match GetRoadShields road1.m_destination_ref with
    | [] => road1
    | sh0 :: _ => { road1 with m_destination_ref := sh0 }
  let outArr : List String :=
    if road2.HasExitInfo then
      (if road2.m_junction_ref ≠ "" then [road2.m_junction_ref] else []) ++
      (if road2.m_destination_ref ≠ "" then [road2.m_destination_ref] else []) ++
      (if road2.m_destination ≠ "" then [road2.m_destination]
       else if road2.m_name ≠ "" then [road2.m_name] else [])
    else
      (if road2.m_ref ≠ "" then [road2.m_ref] else []) ++
      (if road2.m_name ≠ "" then [road2.m_name] else [])
  appendWithDelimiter "" outArr

/-- A road without exit info. -/
def examplePlainRoad : RoadNameInfo :=
  { m_ref := "CA-1", m_name := "Pacific Coast Hwy" }

/-- A road with a junction reference and a destination reference. -/
def exampleExitRoad : RoadNameInfo :=
  { m_junction_ref := "12A", m_destination_ref := "I-95", m_name := "Main St" }

/-- A road with a junction reference, its own reference, and no destination reference. -/
def exampleJunctionRoad : RoadNameInfo :=
  { m_junction_ref := "12A", m_ref := "I-95", m_name := "Main St" }

/-! ## Cleanup pass of `GetTurnNotification` -/

/-- The scan of `std::regex_replace(s, re, fmt)` for a pattern without anchors whose matches
are never empty. `matchAt u` is the length of the match of `re` that starts at the head of
the remaining input `u`, if there is one. With `skip = 0` the scan stands at a position where
a match may start: a match is replaced by `fmt` and the scan resumes right after it, a
position without a match copies its character. `skip` counts the characters of the current
match that are still to be passed over. -/
def regex_replace (matchAt : List Char → Option Nat) (fmt : List Char) :
    Nat → List Char → List Char
  | _, [] => []
  | skip + 1, _ :: rest => regex_replace matchAt fmt skip rest
  | 0, c :: rest =>
    match matchAt (c :: rest) with
    | some (len + 1) => fmt ++ regex_replace matchAt fmt len rest
    | _ => c :: regex_replace matchAt fmt 0 rest

/-- The character class `[,\.:;]` of the pattern `rP`. -/
def isFloatingPunctuation (c : Char) : Bool :=
  c == ',' || c == '.' || c == ':' || c == ';'

/-- The character class `[ :]` of the pattern `rS`. -/
def isSpaceOrColon (c : Char) : Bool :=
  c == ' ' || c == ':'

/-- Match of `rP = " [,\.:;]+ "` at the head of `u`: a space, the longest run of one or more
punctuation characters, and a space. The run and the closing space share no character, so
the greedy run is the only candidate. -/
def rP (u : List Char) : Option Nat :=
  match u with
  | [] => none
  | c :: rest =>
    let run := rest.takeWhile isFloatingPunctuation
    if c == ' ' && !run.isEmpty && (rest.drop run.length).head? == some ' ' then
      some (run.length + 2)
    else none

/-- Match of `rS = "[ :]{2,99}"` at the head of `u`: the longest run of spaces and colons,
cut at 99 characters, when it has at least two. -/
def rS (u : List Char) : Option Nat :=
  let run := u.takeWhile isSpaceOrColon
  if 2 ≤ run.length then some (min run.length 99) else none

/-- The pass `std::regex_replace(cleanOut, rL, "")` with `rL = "^ +"`: the pattern is anchored
at the beginning of the input, so its only match is the run of leading spaces. -/
def trimLeadingSpaces (s : List Char) : List Char :=
  s.dropWhile (fun c => c == ' ')

/-- The three cleanup passes of `GetTurnNotification` over the formatted text `ttsOut`:
remove floating punctuation, remove repetitious spaces or colons, trim leading spaces. -/
def cleanOutChars (ttsOut : List Char) : List Char :=
  trimLeadingSpaces (regex_replace rS [' '] 0 (regex_replace rP [' '] 0 ttsOut))

/-- The cleanup pass on strings. -/
def cleanOut (ttsOut : String) : String :=
  String.mk (cleanOutChars ttsOut.data)


/-! ## Position selected by the distance quantizer -/

/-- The position of the entry whose key `DistToTextId` returns: `iPrev` when the rounding
test of `DistToTextId` succeeds, `it` otherwise, and nothing when `it == end`. -/
def DistToTextPos (table : List (Nat × String)) (dist : Nat) : Option Nat :=
  let it := lower_bound table dist
  match table[it]? with
  | none => none
  | some cur =>
    if it ≠ 0 then
      match table[it - 1]? with
      | some iPrev =>
        if mul32 (sub32 dist iPrev.1) 2 < sub32 cur.1 dist then some (it - 1) else some it
      | none => some it
    else some it

/-! ## Collaborators of the sentence assembler -/

/-- The text source behind `m_getCurLang` (`platform::GetTextById`): its locale and its
lookup of a text id, which yields the empty string for an id without text. -/
structure TextById where
  GetLocale : String
  lookup : String → String

/-- The state of `GetTtsText`: the text source set by `SetLocale`, absent before. -/
structure GetTtsText where
  m_getCurLang : Option TextById

/-- Embedding of `GetTtsText::GetLocale`. -/
def GetTtsText.GetLocale (self : GetTtsText) : String :=
  match self.m_getCurLang with
  | none => ""
  | some curLang => curLang.GetLocale

/-- Embedding of `GetTtsText::GetTextById`. -/
def GetTtsText.GetTextById (self : GetTtsText) (textId : String) : String :=
  match self.m_getCurLang with
  | none => ""
  | some curLang => curLang.lookup textId

/-- Functions and tables that `turns_tts_text.cpp` takes from elsewhere: the shield parser,
the two tables of sounded distances, `strings::MakeLowerCase`, and `snprintf` into the
1024-byte buffer `ttsOut` with a format and five string arguments. -/
structure Collaborators where
  GetRoadShields : String → List String
  GetAllSoundedDistMeters : List (Nat × String)
  GetAllSoundedDistFeet : List (Nat × String)
  MakeLowerCase : String → String
  snprintf : String → String → String → String → String → String → String

/-- Embedding of `GetDistanceTextId`. -/
def GetDistanceTextId (ext : Collaborators) (notification : Notification) : String :=
  match notification.m_lengthUnits with
  | Units.Metric => DistToTextId ext.GetAllSoundedDistMeters notification.m_distanceUnits
  | Units.Imperial => DistToTextId ext.GetAllSoundedDistFeet notification.m_distanceUnits

/-- Modelled from the spec: `RoadNameInfo::empty` is declared in a header that is not part
of the sources at hand. Section 8 of the specification speaks of a next-street info that
is entirely empty: every one of its strings is empty. -/
def RoadNameInfo.empty (road : RoadNameInfo) : Bool :=
  decide (road.m_name = "") && decide (road.m_destination_ref = "") &&
    decide (road.m_junction_ref = "") && decide (road.m_destination = "") &&
    decide (road.m_ref = "")

/-! ## String helpers -/

/-- The test `needle.find(item) != std::string::npos`: `item` occurs in `needle`. -/
def stringFind (needle item : List Char) : Bool :=
  match needle with
  | [] => item.isEmpty
  | c :: rest => item.isPrefixOf (c :: rest) || stringFind rest item

/-- The loop of `FindInStrArray` from the item with index `item_i` on. -/
def FindInStrArrayFrom (needle : String) : List String → Int → Int
  | [], _ => -1
  | item :: rest, item_i =>
    if stringFind needle.data item.data then item_i
    else FindInStrArrayFrom needle rest (item_i + 1)

/-- Embedding of `FindInStrArray(haystack, needle)`: the index of the first item of the
haystack that occurs in the needle, `-1` when there is none. -/
def FindInStrArray (haystack : List String) (needle : String) : Int :=
  FindInStrArrayFrom needle haystack 0

/-- Modelled from the spec: `strings::Substring` over a `UniString` is not part of the
sources at hand. Section 4.5 of the specification has the categorizers look, per position
of the backward scan, at the one, two and three characters that end there; the model
yields the characters of `s` at the positions `pos .. pos + len - 1` that exist, hence
nothing when `pos` lies outside of `s`. -/
def Substring (s : List Char) (pos : Int) (len : Nat) : List Char :=
  if pos < 0 then [] else (s.drop pos.toNat).take len

/-- The test `strings::EndsWith(s, suffix)`. -/
def EndsWith (s suffix : String) : Bool :=
  suffix.data.isSuffixOf s.data

/-- The call `s.replace(s.size() - suffix.size(), suffix.size(), replacement)` for a string
`s` that ends with `suffix`. -/
def replaceSuffix (s suffix replacement : String) : String :=
  String.mk (s.data.take (s.data.length - suffix.data.length)) ++ replacement

/-- Modelled from the spec: `strings::ReplaceLast` is not part of the sources at hand.
Section 4.4, step 6a of the specification: strip a trailing sentence-terminal punctuation
character, at most the single trailing occurrence, not all occurrences. The model replaces
`old` by `new` when `str` ends with `old` and leaves `str` unchanged otherwise. -/
def ReplaceLast (str old new : String) : String :=
  if EndsWith str old then replaceSuffix str old new else str

/-! ## Hungarian suffix harmony -/

/-- The pairs `(baseStr[i], harmonyStr[i])` of `HungarianBaseWordTransform`. -/
def baseAndHarmonyStr : List (String × String) :=
  [("e", "é"), ("a", "á"), ("ö", "ő"), ("ü", "ű")]

/-- Embedding of `HungarianBaseWordTransform`; the result is the modified string. -/
def HungarianBaseWordTransform (myString : String) : String :=
  baseAndHarmonyStr.foldl
    (fun s pair => if EndsWith s pair.1 then replaceSuffix s pair.1 pair.2 else s) myString

/-- The array `backNames` of `CategorizeHungarianAcronymsAndNumbers`. -/
def backNames : List String :=
  ["A", "Á", "H", "I", "Í", "K", "O", "Ó", "U", "Ű", "0", "3", "6", "8"]

/-- The array `frontNames` of `CategorizeHungarianAcronymsAndNumbers`. -/
def frontNames : List String :=
  ["B", "C", "D", "E", "É", "F", "G", "J", "L", "M", "N", "Ö", "Ő", "P", "Q", "R", "S", "T",
   "Ú", "Ü", "V", "W", "X", "Y", "Z", "1", "2", "4", "5", "7", "9"]

/-- The array `specialCaseFront` of `CategorizeHungarianAcronymsAndNumbers`. -/
def specialCaseFront : List String :=
  ["10", "40", "50", "70", "90"]

/-- The array `specialCaseBack` of `CategorizeHungarianAcronymsAndNumbers`. -/
def specialCaseBack : List String :=
  ["20", "30", "60", "80"]

/-- One pass through the body of the loop of `CategorizeHungarianAcronymsAndNumbers` at
index `i`: the value returned there, or nothing when the loop goes on. -/
def acronymsAndNumbersAt (original : List Char) (i : Nat) : Option Nat :=
  let oneBuf := String.mk (Substring original (i : Int) 1)
  let twoBuf := String.mk (Substring original ((i : Int) - 1) 2)
  let threeBuf := String.mk (Substring original ((i : Int) - 2) 3)
  if FindInStrArray specialCaseFront twoBuf ≠ -1 then some 1
  else if FindInStrArray specialCaseBack twoBuf ≠ -1 then some 2
  else if threeBuf = "100" then some 2
  else if FindInStrArray frontNames oneBuf ≠ -1 then some 1
  else if FindInStrArray backNames oneBuf ≠ -1 then some 2
  else if oneBuf = " " then some 2
  else none

/-- The loop `for (int i = ...; i >= 0; i--)` of `CategorizeHungarianAcronymsAndNumbers`
with `count` indices left, the next one being `count - 1`; after the loop the function
returns 2. -/
def acronymsAndNumbersLoop (original : List Char) : Nat → Nat
  | 0 => 2
  | i + 1 =>
    match acronymsAndNumbersAt original i with
    | some result => result
    | none => acronymsAndNumbersLoop original i

/-- Embedding of `CategorizeHungarianAcronymsAndNumbers`: 1 is front, 2 is back. The loop
starts at `myString.size() - 1`, the number of bytes of the text less one. -/
def CategorizeHungarianAcronymsAndNumbers (myString : String) : Nat :=
  acronymsAndNumbersLoop myString.data myString.utf8ByteSize

/-- The search of `rNum = "^[0-9]$"` in `lowerOneBuf`: the text is a single digit. -/
def rNum (lowerOneBuf : String) : Bool :=
  match lowerOneBuf.data with
  | [c] => c.isDigit
  | _ => false

/-- The loop of `EndsInAcronymOrNum` with `count` indices left; the result is the value of
`allUppercaseNum` when the loop is left. -/
def endsInAcronymOrNumLoop (MakeLowerCase : String → String) (myUniStr : List Char) :
    Nat → Bool
  | 0 => true
  | i + 1 =>
    let oneBuf := String.mk (Substring myUniStr (i : Int) 1)
    let lowerOneBuf := MakeLowerCase oneBuf
    if oneBuf = " " then true
    else if oneBuf = lowerOneBuf ∧ rNum lowerOneBuf = false then false
    else endsInAcronymOrNumLoop MakeLowerCase myUniStr i

/-- Embedding of `EndsInAcronymOrNum`. -/
def EndsInAcronymOrNum (MakeLowerCase : String → String) (myUniStr : List Char) : Bool :=
  endsInAcronymOrNumLoop MakeLowerCase myUniStr myUniStr.length

/-- The array `front` of `CategorizeHungarianLastWordVowels`. -/
def front : List String :=
  ["e", "é", "ö", "ő", "ü", "ű"]

/-- The array `back` of `CategorizeHungarianLastWordVowels`. -/
def back : List String :=
  ["a", "á", "o", "ó", "u", "ú"]

/-- The array `indeterminate` of `CategorizeHungarianLastWordVowels`. -/
def indeterminate : List String :=
  ["i", "í"]

/-- The loop of `CategorizeHungarianLastWordVowels` with `count` indices left and the current
value of `foundIndeterminate`; after the loop the function returns 2. -/
def lastWordVowelsLoop (MakeLowerCase : String → String) (myString : String) :
    Bool → Nat → Nat
  | _, 0 => 2
  | foundIndeterminate, i + 1 =>
    let oneBuf := String.mk (Substring myString.data (i : Int) 1)
    let lowerC := MakeLowerCase oneBuf
    if FindInStrArray front lowerC ≠ -1 then 1
    else if FindInStrArray back lowerC ≠ -1 then 2
    else
      let foundNow : Bool :=
        if FindInStrArray indeterminate lowerC ≠ -1 then true else foundIndeterminate
      if oneBuf = " " ∧ foundNow = true then 2
      else if oneBuf = " " ∧ foundNow = false then
        CategorizeHungarianAcronymsAndNumbers myString
      else lastWordVowelsLoop MakeLowerCase myString foundNow i

/-- Embedding of `CategorizeHungarianLastWordVowels`: 1 is front, 2 is back. -/
def CategorizeHungarianLastWordVowels (MakeLowerCase : String → String)
    (myString : String) : Nat :=
  if EndsInAcronymOrNum MakeLowerCase myString.data then
    CategorizeHungarianAcronymsAndNumbers myString
  else
    lastWordVowelsLoop MakeLowerCase myString false myString.utf8ByteSize

/-- The bytes of the UTF-8 text of a string, as numbers. -/
def utf8Bytes (s : String) : List Nat :=
  s.data.flatMap (fun c => (String.utf8EncodeChar c).map UInt8.toNat)

/-- The bracket `[5aeiouyáéíóúöüőű]` of `rHun` under `icase`, over bytes: the ASCII
characters in both cases and every byte of the two-byte characters. -/
def rHunBracket (b : Nat) : Bool :=
  b ∈ [0x35, 0x61, 0x65, 0x69, 0x6F, 0x75, 0x79, 0x41, 0x45, 0x49, 0x4F, 0x55, 0x59,
       0xC3, 0xA1, 0xA9, 0xAD, 0xB3, 0xBA, 0xB6, 0xBC, 0xC5, 0x91, 0xB1]

/-- The class `\d` over bytes. -/
def isDigitByte (b : Nat) : Bool :=
  decide (0x30 ≤ b ∧ b ≤ 0x39)

/-- The search `std::regex_search(streetOut, ma, rHun) && ma.size() > 0` with
`rHun = "^[5aeiouyáéíóúöüőű]|^1$|^1[^\d]|^1\d\d\d[^\d]"`: every alternative is anchored
at the beginning of the text, which is matched byte by byte. -/
def rHun (streetOut : String) : Bool :=
  match utf8Bytes streetOut with
  | [] => false
  | b0 :: rest =>
    rHunBracket b0 ||
    (b0 == 0x31 &&
      (match rest with
       | [] => true
       | b1 :: rest1 =>
         !isDigitByte b1 ||
         (match rest1 with
          | b2 :: b3 :: b4 :: _ =>
            isDigitByte b1 && isDigitByte b2 && isDigitByte b3 && !isDigitByte b4
          | _ => false)))

/-! ## Sentence assembler -/

/-- The three calls `strings::ReplaceLast(s, ".", "")`, `strings::ReplaceLast(s, "。", "")`,
`strings::ReplaceLast(s, "।", "")`, made for `distStr` and later for `dirStr`. -/
def ReplaceFullStops (s : String) : String :=
  ReplaceLast (ReplaceLast (ReplaceLast s "." "") "。" "") "।" ""

/-- The format and the five arguments of the `snprintf` call that fills `ttsOut`. -/
structure TtsOutCall where
  distDirOntoStreetStr : String
  distStr : String
  dirStr : String
  ontoStr : String
  streetOut : String
  dirVerb : String
  deriving DecidableEq, Repr

/-- The street-name branch of `GetTurnNotification` up to the test of the locale: the
texts looked up and stripped for the sentence with a street name. -/
def GetTtsText.streetTexts (self : GetTtsText) (notification : Notification)
    (dirKey dirStr distStr streetOut : String) : TtsOutCall :=
  let distStr1 := ReplaceFullStops distStr
  let dirStreetStr := self.GetTextById (dirKey ++ "_street")
  let dirStr1 := if dirStreetStr ≠ "" then dirStreetStr else dirStr
  let ontoStr := self.GetTextById "onto"
  let dirExitStr := self.GetTextById "take_exit_number"
  let takeExit : Bool :=
    decide (notification.m_nextStreetInfo.m_junction_ref ≠ "") && decide (dirExitStr ≠ "")
  let dirStr2 := if takeExit then dirExitStr else dirStr1
  let ontoStr1 := if takeExit then "" else ontoStr
  let dirStr3 := ReplaceFullStops dirStr2
  let distDirOntoStreetStr := self.GetTextById "dist_direction_onto_street"
  let dirVerb := self.GetTextById (dirKey ++ "_street_verb")
  { distDirOntoStreetStr := distDirOntoStreetStr, distStr := distStr1, dirStr := dirStr3,
    ontoStr := ontoStr1, streetOut := streetOut, dirVerb := dirVerb }

/-- The block `if (localeKey == "hu") { ... }` of `GetTurnNotification`. -/
def HungarianTexts (MakeLowerCase : String → String) (texts : TtsOutCall) : TtsOutCall :=
  let streetOut := HungarianBaseWordTransform texts.streetOut
  let hungarianism := CategorizeHungarianLastWordVowels MakeLowerCase streetOut
  let distDirOntoStreetStr :=
    if hungarianism = 1 then ReplaceLast texts.distDirOntoStreetStr "-re" "re"
    else if hungarianism = 2 then ReplaceLast texts.distDirOntoStreetStr "-re" "ra"
    else ReplaceLast texts.distDirOntoStreetStr "-re" ""
  let startsWithVowel := rHun streetOut
  let ontoStr := if startsWithVowel ∧ texts.ontoStr = "a" then "az" else texts.ontoStr
  let dirStr :=
    if startsWithVowel ∧ texts.dirStr = "Hajtson ki a" then "Hajtson ki az" else texts.dirStr
  { distDirOntoStreetStr := distDirOntoStreetStr, distStr := texts.distStr, dirStr := dirStr,
    ontoStr := ontoStr, streetOut := streetOut, dirVerb := texts.dirVerb }

/-- The format and arguments that the street-name branch of `GetTurnNotification` hands
to `snprintf`. -/
def GetTtsText.ttsOutCall (self : GetTtsText) (ext : Collaborators)
    (notification : Notification) (dirKey dirStr distStr streetOut : String) : TtsOutCall :=
  let texts := self.streetTexts notification dirKey dirStr distStr streetOut
  if self.GetLocale = "hu" then HungarianTexts ext.MakeLowerCase texts else texts

/-- The value of `thenStr` in `GetTurnNotification`. -/
def GetTtsText.thenStr (self : GetTtsText) (notification : Notification) : String :=
  if notification.m_useThenInsteadOfDistance then
    if self.GetLocale ≠ "ja" then self.GetTextById "then" ++ " "
    else self.GetTextById "then"
  else ""

/-- The value of `distStr` in `GetTurnNotification` before the street-name branch. -/
def GetTtsText.distStr (self : GetTtsText) (ext : Collaborators)
    (notification : Notification) : String :=
  if notification.m_distanceUnits > 0 then
    self.GetTextById (GetDistanceTextId ext notification)
  else ""

/-- Embedding of `GetTtsText::GetTurnNotification`. -/
def GetTtsText.GetTurnNotification (self : GetTtsText) (ext : Collaborators)
    (notification : Notification) : String :=
  let localeKey := self.GetLocale
  let dirKey := GetDirectionTextId notification
  let dirStr := self.GetTextById dirKey
  if notification.m_distanceUnits = 0 ∧ notification.m_useThenInsteadOfDistance = false ∧
      notification.m_nextStreetInfo.empty = true then
    dirStr
  else if notification.IsPedestrianNotification = true ∧
      notification.m_useThenInsteadOfDistance = true ∧
      notification.m_turnDirPedestrian = PedestrianDirection.None then
    ""
  else if notification.m_useThenInsteadOfDistance = true ∧
      notification.m_turnDir = CarDirection.None then
    ""
  else if dirStr = "" then
    ""
  else
    let thenStr := self.thenStr notification
    let distStr := self.distStr ext notification
    let streetOut := FormatFullRoadName ext.GetRoadShields notification.m_nextStreetInfo
    if streetOut ≠ "" then
      let call := self.ttsOutCall ext notification dirKey dirStr distStr streetOut
      let ttsOut := ext.snprintf call.distDirOntoStreetStr call.distStr call.dirStr
        call.ontoStr call.streetOut call.dirVerb
      thenStr ++ cleanOut ttsOut
    else if distStr ≠ "" then
      if localeKey ≠ "ja" then thenStr ++ distStr ++ " " ++ dirStr
      else thenStr ++ distStr ++ dirStr
    else
      thenStr ++ dirStr

/-- Embedding of `GetTtsText::GetSpeedCameraNotification`. -/
def GetTtsText.GetSpeedCameraNotification (self : GetTtsText) : String :=
  self.GetTextById "unknown_camera"

/-! ## Example collaborators and notifications -/

/-- A lower-casing that knows the ASCII letters only. -/
def exampleMakeLowerCase (s : String) : String :=
  String.mk (s.data.map Char.toLower)

/-- The text of a format in which every conversion `%1$s` .. `%5$s` is replaced by the
argument with that number. -/
def substitutePositional (args : List String) : List Char → List Char
  | [] => []
  | '%' :: digit :: '$' :: 's' :: rest =>
    (args.getD (digit.toNat - 49) "").data ++ substitutePositional args rest
  | c :: rest => c :: substitutePositional args rest

/-- What `snprintf` writes for a format made of plain text and the conversions `%1$s` ..
`%5$s`, as long as the text fits the buffer. -/
def exampleSnprintf (format distStr dirStr ontoStr streetOut dirVerb : String) : String :=
  String.mk (substitutePositional [distStr, dirStr, ontoStr, streetOut, dirVerb] format.data)

/-- Collaborators with a shield parser that finds nothing and short distance tables. -/
def exampleCollaborators : Collaborators :=
  { GetRoadShields := fun _ => [],
    GetAllSoundedDistMeters := [(100, "in_100_meters"), (200, "in_200_meters")],
    GetAllSoundedDistFeet := [(100, "in_100_feet"), (200, "in_200_feet")],
    MakeLowerCase := exampleMakeLowerCase,
    snprintf := exampleSnprintf }

/-- An English text source with a few texts. -/
def exampleEnglish : GetTtsText :=
  { m_getCurLang := some
      { GetLocale := "en",
        lookup := fun textId =>
          if textId = "make_a_left_turn" then "Turn left"
          else if textId = "then" then "Then"
          else if textId = "in_100_meters" then "In 100 meters"
          else if textId = "onto" then "onto"
          else if textId = "dist_direction_onto_street" then "%1$s %2$s %3$s %4$s %5$s"
          else "" } }

/-- An English text source that only has the text of one direction. -/
def exampleDirectionOnly : GetTtsText :=
  { m_getCurLang := some
      { GetLocale := "en",
        lookup := fun textId => if textId = "make_a_left_turn" then "Turn left" else "" } }

/-- A Hungarian text source with the article "a" as its "onto" text. -/
def exampleHungarian : GetTtsText :=
  { m_getCurLang := some
      { GetLocale := "hu",
        lookup := fun textId =>
          if textId = "make_a_left_turn" then "Forduljon balra"
          else if textId = "onto" then "a"
          else if textId = "take_exit_number" then "Hajtson ki a"
          else if textId = "dist_direction_onto_street" then "%1$s %2$s %3$s %4$s-re"
          else "" } }

/-- A vehicle notification: turn left in 100 meters. -/
def exampleLeftIn100 : Notification :=
  { m_turnDir := CarDirection.TurnLeft, m_distanceUnits := 100 }

/-- A vehicle notification: then turn left. -/
def exampleThenLeft : Notification :=
  { m_turnDir := CarDirection.TurnLeft, m_useThenInsteadOfDistance := true }

/-- A vehicle notification: turn right in 100 meters. -/
def exampleRightIn100 : Notification :=
  { m_turnDir := CarDirection.TurnRight, m_distanceUnits := 100 }

/-- A pedestrian notification: then turn left. -/
def examplePedestrianThenLeft : Notification :=
  { m_turnDirPedestrian := PedestrianDirection.TurnLeft, m_useThenInsteadOfDistance := true }

/-- A vehicle notification: turn left onto the road with reference "1000". -/
def exampleLeftOnto1000 : Notification :=
  { m_turnDir := CarDirection.TurnLeft, m_nextStreetInfo := { m_ref := "1000" } }

/-- A lower-casing that works character by character with `lower`. -/
def MakeLowerCaseBy (lower : Char → Char) (s : String) : String :=
  String.mk (s.data.map lower)

/-- A vehicle notification: turn left onto the road with reference "1". -/
def exampleLeftOnto1 : Notification :=
  { m_turnDir := CarDirection.TurnLeft, m_nextStreetInfo := { m_ref := "1" } }

/-- An English text source whose distance text ends in two full-stop glyphs. -/
def exampleStackedFullStops : GetTtsText :=
  { m_getCurLang := some
      { GetLocale := "en",
        lookup := fun textId =>
          if textId = "make_a_left_turn" then "Turn left."
          else if textId = "in_100_meters" then "In 100 meters。."
          else if textId = "onto" then "onto"
          else if textId = "dist_direction_onto_street" then "%1$s %2$s %3$s %4$s %5$s"
          else "" } }

/-- A vehicle notification: turn left in 100 meters onto "Main St". -/
def exampleLeftIn100OntoMain : Notification :=
  { m_turnDir := CarDirection.TurnLeft, m_distanceUnits := 100,
    m_nextStreetInfo := { m_name := "Main St" } }

/-- A lower-casing of single characters that knows the ASCII letters and the accented
capitals of the Hungarian alphabet. -/
def exampleHungarianLower (c : Char) : Char :=
  if c = 'Á' then 'á'
  else if c = 'É' then 'é'
  else if c = 'Í' then 'í'
  else if c = 'Ó' then 'ó'
  else if c = 'Ö' then 'ö'
  else if c = 'Ő' then 'ő'
  else if c = 'Ú' then 'ú'
  else if c = 'Ü' then 'ü'
  else if c = 'Ű' then 'ű'
  else c.toLower

/-- A Japanese text source: the locale whose sentences are joined without spaces. -/
def exampleJapanese : GetTtsText :=
  { m_getCurLang := some
      { GetLocale := "ja",
        lookup := fun textId =>
          if textId = "make_a_left_turn" then "左折です"
          else if textId = "then" then "その先"
          else if textId = "in_100_meters" then "100メートル先"
          else "" } }

/-- A vehicle notification: then-phrasing together with a distance of 100 meters. -/
def exampleThenLeftIn100 : Notification :=
  { m_turnDir := CarDirection.TurnLeft, m_distanceUnits := 100,
    m_useThenInsteadOfDistance := true }

theorem lower_bound_append (pre post : List (Nat × String)) (cur : Nat × String) (dist : Nat)
    (hpre : ∀ p ∈ pre, p.1 < dist) (hcur : dist ≤ cur.1) :
    lower_bound (pre ++ cur :: post) dist = pre.length := by
  induction pre with
  | nil => simp [lower_bound, List.takeWhile, Nat.not_lt.mpr hcur]
  | cons a as ih =>
    have ha : a.1 < dist := hpre a (by simp)
    have ih2 := ih (fun p hp => hpre p (by simp [hp]))
    simp only [lower_bound] at ih2 ⊢
    simp [List.takeWhile, ha, ih2]

theorem lower_bound_all_lt (table : List (Nat × String)) (dist : Nat)
    (h : ∀ p ∈ table, p.1 < dist) : lower_bound table dist = table.length := by
  induction table with
  | nil => simp [lower_bound]
  | cons a as ih =>
    have ha : a.1 < dist := h a (by simp)
    have ih2 := ih (fun p hp => h p (by simp [hp]))
    simp only [lower_bound] at ih2 ⊢
    simp [List.takeWhile, ha, ih2]

theorem DistToTextId_of_all_lt (table : List (Nat × String)) (dist : Nat)
    (h : ∀ p ∈ table, p.1 < dist) : DistToTextId table dist = "" := by
  simp [DistToTextId, lower_bound_all_lt table dist h]

theorem DistToTextId_of_split (pre post : List (Nat × String)) (cur : Nat × String) (dist : Nat)
    (hpre : ∀ p ∈ pre, p.1 < dist) (hcur : dist ≤ cur.1) :
    DistToTextId (pre ++ cur :: post) dist =
      match pre.getLast? with
      | none => cur.2
      | some iPrev =>
        if mul32 (sub32 dist iPrev.1) 2 < sub32 cur.1 dist then iPrev.2 else cur.2 := by
  have hlb := lower_bound_append pre post cur dist hpre hcur
  rcases List.eq_nil_or_concat pre with hnil | ⟨init, last, hconcat⟩
  · subst hnil
    simp only [List.nil_append, List.length_nil] at hlb
    simp [DistToTextId, hlb]
  · subst hconcat
    simp only [List.concat_eq_append, List.append_assoc, List.singleton_append,
      List.length_append, List.length_singleton] at hlb
    have h1 : (init ++ last :: cur :: post)[init.length + 1]? = some cur := by
      rw [List.getElem?_append_right (by omega)]
      simp
    have h0 : (init ++ last :: cur :: post)[init.length]? = some last := by
      rw [List.getElem?_append_right (by omega)]
      simp
    simp [DistToTextId, hlb, h1, h0]


theorem sub32_of_le (a b : Nat) (hba : b ≤ a) (ha : a < 2 ^ 32) : sub32 a b = a - b := by
  simp only [sub32, kUint32Modulus]
  omega

theorem mul32_two_of_lt (a : Nat) (ha : a < 2 ^ 31) : mul32 a 2 = a * 2 := by
  simp only [mul32, kUint32Modulus]
  omega

theorem first_not_below (table : List (Nat × String)) (dist : Nat) :
    (∀ p ∈ table, p.1 < dist) ∨
      ∃ pre cur post, table = pre ++ cur :: post ∧ (∀ p ∈ pre, p.1 < dist) ∧ dist ≤ cur.1 := by
  induction table with
  | nil => left; simp
  | cons a as ih =>
    by_cases ha : a.1 < dist
    · rcases ih with hall | ⟨pre, cur, post, heq, hpre, hcur⟩
      · left
        intro p hp
        rcases List.mem_cons.mp hp with rfl | hp
        · exact ha
        · exact hall p hp
      · right
        refine ⟨a :: pre, cur, post, by simp [heq], ?_, hcur⟩
        intro p hp
        rcases List.mem_cons.mp hp with rfl | hp
        · exact ha
        · exact hpre p hp
    · right
      exact ⟨[], a, as, by simp, by simp, Nat.le_of_not_lt ha⟩

theorem sorted_below_of_last (pre post : List (Nat × String)) (lo : Nat × String) (dist : Nat)
    (hsorted : ((pre ++ lo :: post).map Prod.fst).Sorted (· ≤ ·)) (hlo : lo.1 < dist) :
    ∀ p ∈ pre ++ [lo], p.1 < dist := by
  intro p hp
  rcases List.mem_append.mp hp with hp | hp
  · have hs : (pre.map Prod.fst ++ (lo :: post).map Prod.fst).Sorted (· ≤ ·) := by
      simpa using hsorted
    have := (List.pairwise_append.mp hs).2.2 p.1 (List.mem_map_of_mem _ hp) lo.1 (by simp)
    omega
  · simp at hp
    subst hp
    exact hlo

/-- C3. The tie-break rule of the distance quantizer: when `hi` is the first threshold of a
sorted table that is not below `d` (thresholds below `2 ^ 31`, so nothing wraps), the result
is the key of the predecessor `lo` if there is one and `(d - lo) * 2 < hi - d`, and the key
of `hi` otherwise. -/
theorem DistToTextId_tie_break (pre post : List (Nat × String)) (hi : Nat) (khi : String)
    (d : Nat)
    (_hsorted : ((pre ++ (hi, khi) :: post).map Prod.fst).Sorted (· ≤ ·))
    (hbound : ∀ p ∈ pre ++ (hi, khi) :: post, p.1 < 2 ^ 31)
    (hfirst : ∀ p ∈ pre, p.1 < d) (hhi : d ≤ hi) :
    DistToTextId (pre ++ (hi, khi) :: post) d =
      match pre.getLast? with
      | none => khi
      | some (lo, klo) => if (d - lo) * 2 < hi - d then klo else khi := by
  rw [DistToTextId_of_split pre post (hi, khi) d hfirst hhi]
  have hhib : hi < 2 ^ 31 := hbound (hi, khi) (by simp)
  cases hlast : pre.getLast? with
  | none => rfl
  | some iPrev =>
    obtain ⟨lo, klo⟩ := iPrev
    have hmem : (lo, klo) ∈ pre := List.mem_of_getLast?_eq_some hlast
    have hlo : lo < d := hfirst _ hmem
    simp only []
    rw [sub32_of_le d lo (by omega) (by omega), sub32_of_le hi d hhi (by omega),
      mul32_two_of_lt (d - lo) (by omega)]


/-- C3 (witness). The table `{100 -> "A", 200 -> "B"}` at distance 130. -/
theorem DistToTextId_tie_break_witness :
    (([(100, "A")] ++ (200, "B") :: []).map Prod.fst).Sorted (· ≤ ·) ∧
    (∀ p ∈ [(100, "A")] ++ (200, "B") :: [], p.1 < 2 ^ 31) ∧
    (∀ p ∈ [((100 : Nat), "A")], p.1 < 130) ∧ 130 ≤ 200 ∧
    DistToTextId [(100, "A"), (200, "B")] 130 = "A" :=
  ⟨by decide, by decide, by decide, by decide,
    DistToTextId_tie_break [(100, "A")] [] 200 "B" 130 (by decide) (by decide) (by decide)
      (by decide)⟩

/-- C2 (as amended). Between adjacent thresholds `lo < d ≤ hi` of a sorted table
(thresholds below `2 ^ 31`) the quantizer returns the key of `lo` when `d` lies strictly
within the first third of the gap, `3 * d < hi + 2 * lo`, and the key of `hi` otherwise; in
particular it returns the key of `hi` whenever `hi` is at least as near as `lo`, the exact
midpoint included. -/
theorem DistToTextId_lower_third (pre post : List (Nat × String)) (lo hi : Nat)
    (klo khi : String) (d : Nat)
    (hsorted : ((pre ++ (lo, klo) :: (hi, khi) :: post).map Prod.fst).Sorted (· ≤ ·))
    (hbound : ∀ p ∈ pre ++ (lo, klo) :: (hi, khi) :: post, p.1 < 2 ^ 31)
    (hlo : lo < d) (hhi : d ≤ hi) :
    (3 * d < hi + 2 * lo → DistToTextId (pre ++ (lo, klo) :: (hi, khi) :: post) d = klo) ∧
    (hi + 2 * lo ≤ 3 * d → DistToTextId (pre ++ (lo, klo) :: (hi, khi) :: post) d = khi) ∧
    (hi - d ≤ d - lo → DistToTextId (pre ++ (lo, klo) :: (hi, khi) :: post) d = khi) := by
  have hfirst : ∀ p ∈ pre ++ [(lo, klo)], p.1 < d :=
    sorted_below_of_last pre ((hi, khi) :: post) (lo, klo) d hsorted hlo
  have hlob : lo < 2 ^ 31 := hbound (lo, klo) (by simp)
  have hhib : hi < 2 ^ 31 := hbound (hi, khi) (by simp)
  have hsplit := DistToTextId_of_split (pre ++ [(lo, klo)]) post (hi, khi) d hfirst hhi
  have hlast : (pre ++ [(lo, klo)]).getLast? = some (lo, klo) := by simp
  rw [hlast] at hsplit
  simp only [List.append_assoc, List.singleton_append] at hsplit
  rw [hsplit, sub32_of_le d lo (by omega) (by omega), sub32_of_le hi d hhi (by omega),
    mul32_two_of_lt (d - lo) (by omega)]
  refine ⟨fun h => ?_, fun h => ?_, fun h => ?_⟩
  · rw [if_pos (by omega)]
  · rw [if_neg (by omega)]
  · rw [if_neg (by omega)]

/-- C2 (witness). The table `{100 -> "A", 200 -> "B"}` at distance 140, where 100 is the
nearer threshold and the key of 200 is returned. -/
theorem DistToTextId_lower_third_witness :
    (([] ++ (100, "A") :: (200, "B") :: []).map Prod.fst).Sorted (· ≤ ·) ∧
    (∀ p ∈ [] ++ ((100 : Nat), "A") :: (200, "B") :: [], p.1 < 2 ^ 31) ∧
    100 < 140 ∧ 140 ≤ 200 ∧ 200 + 2 * 100 ≤ 3 * 140 ∧
    DistToTextId [(100, "A"), (200, "B")] 140 = "B" :=
  ⟨by decide, by decide, by decide, by decide, by decide,
    (DistToTextId_lower_third [] [] 100 200 "A" "B" 140 (by decide) (by decide) (by decide)
      (by decide)).2.1 (by decide)⟩

/-- C2 (counterexample). For the table `{100 -> "A", 200 -> "B"}` the exact midpoint 150 is
quantized to "B", the key of the upper threshold, not to "A". -/
theorem DistToTextId_midpoint_goes_up :
    DistToTextId [(100, "A"), (200, "B")] 150 = "B" ∧
    DistToTextId [(100, "A"), (200, "B")] 150 ≠ "A" := by
  decide

/-- C4. Out-of-range distances: for a sorted table whose keys are all non-empty, the
quantizer returns the empty string exactly when no threshold is at least `d`, and in every
other case it returns a key that occurs in the table. -/
theorem DistToTextId_empty_iff (table : List (Nat × String)) (d : Nat)
    (_hsorted : (table.map Prod.fst).Sorted (· ≤ ·))
    (hkeys : ∀ p ∈ table, p.2 ≠ "") :
    (DistToTextId table d = "" ↔ ∀ p ∈ table, p.1 < d) ∧
    ((∃ p ∈ table, d ≤ p.1) → ∃ p ∈ table, DistToTextId table d = p.2) := by
  rcases first_not_below table d with hall | ⟨pre, cur, post, heq, hpre, hcur⟩
  · refine ⟨⟨fun _ => hall, fun _ => DistToTextId_of_all_lt table d hall⟩, ?_⟩
    rintro ⟨p, hp, hdp⟩
    exact absurd (hall p hp) (Nat.not_lt.mpr hdp)
  · have hcurmem : cur ∈ table := by simp [heq]
    have hres : ∃ p ∈ table, DistToTextId table d = p.2 := by
      rw [heq, DistToTextId_of_split pre post cur d hpre hcur]
      cases hlast : pre.getLast? with
      | none => exact ⟨cur, by simp, rfl⟩
      | some iPrev =>
        have hmem : iPrev ∈ pre := List.mem_of_getLast?_eq_some hlast
        by_cases hc : mul32 (sub32 d iPrev.1) 2 < sub32 cur.1 d
        · exact ⟨iPrev, by simp [hmem], by simp [hc]⟩
        · exact ⟨cur, by simp, by simp [hc]⟩
    refine ⟨⟨fun hempty => ?_, fun hall => ?_⟩, fun _ => hres⟩
    · obtain ⟨p, hp, hpeq⟩ := hres
      exact absurd (hpeq ▸ hempty) (hkeys p hp)
    · exact absurd (hall cur hcurmem) (Nat.not_lt.mpr hcur)

/-- C4 (witness). The table `{100 -> "A", 200 -> "B"}` at distance 201. -/
theorem DistToTextId_empty_iff_witness :
    (([((100 : Nat), "A"), (200, "B")]).map Prod.fst).Sorted (· ≤ ·) ∧
    (∀ p ∈ [((100 : Nat), "A"), (200, "B")], p.2 ≠ "") ∧
    (DistToTextId [(100, "A"), (200, "B")] 201 = "" ↔
      ∀ p ∈ [((100 : Nat), "A"), (200, "B")], p.1 < 201) :=
  ⟨by decide, by decide,
    (DistToTextId_empty_iff [(100, "A"), (200, "B")] 201 (by decide) (by decide)).1⟩

/-! ## Text-id resolvers -/

theorem take_the_exit_ne_empty (s : String) : "take_the_" ++ s ++ "_exit" ≠ "" := by
  intro h
  have hlen := congrArg String.length h
  simp only [String.length_append] at hlen
  have h9 : "take_the_".length = 9 := by decide
  have h0 : "".length = 0 := by decide
  omega

/-- C5. Roundabout key: for a notification whose vehicle maneuver is `LeaveRoundAbout`, the
key is "leave_the_roundabout" when then-phrasing is off, or when the exit index is 0 or
above 11, and "take_the_N_exit" with `N` the decimal exit index when then-phrasing is on
and `1 ≤ N ≤ 11`. -/
theorem GetRoundaboutTextId_spec (n : Notification)
    (hdir : n.m_turnDir = CarDirection.LeaveRoundAbout) :
    (n.m_useThenInsteadOfDistance = false → GetRoundaboutTextId n = "leave_the_roundabout") ∧
    (n.m_exitNum = 0 ∨ 11 < n.m_exitNum → GetRoundaboutTextId n = "leave_the_roundabout") ∧
    (n.m_useThenInsteadOfDistance = true → 1 ≤ n.m_exitNum → n.m_exitNum ≤ 11 →
      GetRoundaboutTextId n = "take_the_" ++ toString n.m_exitNum ++ "_exit") := by
  refine ⟨fun h => ?_, fun h => ?_, fun h h1 h11 => ?_⟩
  · simp [GetRoundaboutTextId, hdir, h]
  · cases hthen : n.m_useThenInsteadOfDistance
    · simp [GetRoundaboutTextId, hdir, hthen]
    · simp [GetRoundaboutTextId, hdir, hthen, kMaxSoundedExit, h]
  · have hne : ¬ (n.m_exitNum = 0 ∨ n.m_exitNum > kMaxSoundedExit) := by
      simp only [kMaxSoundedExit]; omega
    simp [GetRoundaboutTextId, hdir, h, hne]

/-- C5 (witness). Then-phrasing with exit index 3. -/
theorem GetRoundaboutTextId_spec_witness :
    exampleTakeThirdExit.m_turnDir = CarDirection.LeaveRoundAbout ∧
    exampleTakeThirdExit.m_useThenInsteadOfDistance = true ∧
    1 ≤ exampleTakeThirdExit.m_exitNum ∧ exampleTakeThirdExit.m_exitNum ≤ 11 ∧
    GetRoundaboutTextId exampleTakeThirdExit = "take_the_3_exit" :=
  ⟨rfl, rfl, by decide, by decide,
   (GetRoundaboutTextId_spec exampleTakeThirdExit rfl).2.2 rfl (by decide) (by decide)⟩

theorem GetYouArriveTextId_of_own_arm (n : Notification)
    (h : (n.IsPedestrianNotification = false ∧
          n.m_turnDir = CarDirection.ReachedYourDestination) ∨
        (n.IsPedestrianNotification = true ∧
          n.m_turnDirPedestrian = PedestrianDirection.ReachedYourDestination)) :
    GetYouArriveTextId n =
      if n.m_distanceUnits ≠ 0 ∨ n.m_useThenInsteadOfDistance = true then "destination"
      else "you_have_reached_the_destination" := by
  rcases h with ⟨hp, hd⟩ | ⟨hp, hd⟩
  · simp [GetYouArriveTextId, hp, hd]
  · simp [GetYouArriveTextId, hp, hd]

/-- C6. Arrival key: when the maneuver is the destination-reached variant of the
notification's own arm (vehicle or pedestrian), the key is "destination" if the distance is
nonzero or then-phrasing is on and "you_have_reached_the_destination" otherwise; when the
maneuver is not the destination-reached variant of its arm, the key is empty. -/
theorem GetYouArriveTextId_spec (n : Notification) :
    (((n.IsPedestrianNotification = false ∧
          n.m_turnDir = CarDirection.ReachedYourDestination) ∨
        (n.IsPedestrianNotification = true ∧
          n.m_turnDirPedestrian = PedestrianDirection.ReachedYourDestination)) →
      GetYouArriveTextId n =
        if n.m_distanceUnits ≠ 0 ∨ n.m_useThenInsteadOfDistance = true then "destination"
        else "you_have_reached_the_destination") ∧
    (¬ ((n.IsPedestrianNotification = false ∧
          n.m_turnDir = CarDirection.ReachedYourDestination) ∨
        (n.IsPedestrianNotification = true ∧
          n.m_turnDirPedestrian = PedestrianDirection.ReachedYourDestination)) →
      GetYouArriveTextId n = "") := by
  refine ⟨GetYouArriveTextId_of_own_arm n, fun h => ?_⟩
  cases hp : n.IsPedestrianNotification
  · have hd : n.m_turnDir ≠ CarDirection.ReachedYourDestination := fun hd =>
      h (Or.inl ⟨hp, hd⟩)
    simp [GetYouArriveTextId, hp, hd]
  · have hd : n.m_turnDirPedestrian ≠ PedestrianDirection.ReachedYourDestination := fun hd =>
      h (Or.inr ⟨hp, hd⟩)
    simp [GetYouArriveTextId, hp, hd]

theorem GetRoundaboutTextId_ne_empty (n : Notification)
    (hdir : n.m_turnDir = CarDirection.LeaveRoundAbout) : GetRoundaboutTextId n ≠ "" := by
  unfold GetRoundaboutTextId
  rw [if_neg (by simp [hdir])]
  split_ifs
  · decide
  · decide
  · exact take_the_exit_ne_empty _

theorem GetYouArriveTextId_ne_empty (n : Notification)
    (h : (n.IsPedestrianNotification = false ∧
          n.m_turnDir = CarDirection.ReachedYourDestination) ∨
        (n.IsPedestrianNotification = true ∧
          n.m_turnDirPedestrian = PedestrianDirection.ReachedYourDestination)) :
    GetYouArriveTextId n ≠ "" := by
  rw [GetYouArriveTextId_of_own_arm n h]
  split_ifs
  · decide
  · decide

/-- C7. Direction resolver emptiness: the key is empty exactly for a pedestrian
notification whose pedestrian direction is `None` or `Count` and for a vehicle notification
whose direction is `StayOnRoundAbout`, `StartAtEndOfStreet`, `None` or `Count`; every other
maneuver gets a non-empty key, whatever the distance, exit index and then-flag. -/
theorem GetDirectionTextId_eq_empty_iff (n : Notification) :
    GetDirectionTextId n = "" ↔
      (n.IsPedestrianNotification = true ∧
        (n.m_turnDirPedestrian = PedestrianDirection.None ∨
          n.m_turnDirPedestrian = PedestrianDirection.Count)) ∨
      (n.IsPedestrianNotification = false ∧
        (n.m_turnDir = CarDirection.StayOnRoundAbout ∨
          n.m_turnDir = CarDirection.StartAtEndOfStreet ∨
          n.m_turnDir = CarDirection.None ∨
          n.m_turnDir = CarDirection.Count)) := by
  cases hp : n.IsPedestrianNotification
  · have hround := GetRoundaboutTextId_ne_empty n
    have harrive := GetYouArriveTextId_ne_empty n
    cases hd : n.m_turnDir <;>
      simp [GetDirectionTextId, hp, hd] <;>
      first
        | decide
        | exact hround hd
        | exact harrive (Or.inl ⟨hp, hd⟩)
  · have harrive := GetYouArriveTextId_ne_empty n
    cases hd : n.m_turnDirPedestrian <;>
      simp [GetDirectionTextId, hp, hd]
    exact harrive (Or.inr ⟨hp, hd⟩)

/-! ## Road-name formatter -/

theorem appendWithDelimiter_nil (name : String) : appendWithDelimiter name [] = name := rfl

theorem appendWithDelimiter_one (a : String) : appendWithDelimiter "" [a] = a := by
  simp [appendWithDelimiter]

theorem appendWithDelimiter_two (a b : String) :
    appendWithDelimiter "" [a, b] = a ++ "; " ++ b := by
  simp [appendWithDelimiter, String.append_assoc]

theorem appendWithDelimiter_three (a b c : String) :
    appendWithDelimiter "" [a, b, c] = a ++ "; " ++ b ++ "; " ++ c := by
  simp [appendWithDelimiter, String.append_assoc]

/-- C8. Road name without exit info: when the junction reference and the destination
reference are both empty and the shield resolver finds nothing, the result is the non-empty
ones among reference and name, in that order, joined by "; " (the empty string when both
are empty, whatever the destination). -/
theorem FormatFullRoadName_without_exit_info (GetRoadShields : String → List String)
    (road : RoadNameInfo) (hshields : ∀ ref, GetRoadShields ref = [])
    (hjunction : road.m_junction_ref = "") (hdestref : road.m_destination_ref = "") :
    FormatFullRoadName GetRoadShields road =
      "; ".intercalate ([road.m_ref, road.m_name].filter (fun part => decide (part ≠ ""))) := by
  by_cases hr : road.m_ref = "" <;> by_cases hn : road.m_name = "" <;>
    simp [FormatFullRoadName, hshields, RoadNameInfo.HasExitInfo, hjunction, hdestref, hr, hn,
      appendWithDelimiter_nil, appendWithDelimiter_one, appendWithDelimiter_two,
      String.intercalate, String.intercalate.go]


theorem FormatFullRoadName_exit_parts (GetRoadShields : String → List String)
    (road : RoadNameInfo) (hshields : ∀ ref, GetRoadShields ref = [])
    (hexit : road.m_junction_ref ≠ "" ∨ road.m_destination_ref ≠ "") :
    FormatFullRoadName GetRoadShields road =
      "; ".intercalate
        ([road.m_junction_ref, road.m_destination_ref,
          if road.m_destination ≠ "" then road.m_destination else road.m_name].filter
            (fun part => decide (part ≠ ""))) := by
  have hinfo : road.HasExitInfo = true := by
    rcases hexit with h | h <;> simp [RoadNameInfo.HasExitInfo, h]
  by_cases hj : road.m_junction_ref = "" <;> by_cases hd : road.m_destination_ref = "" <;>
    by_cases ht : road.m_destination = "" <;> by_cases hn : road.m_name = "" <;>
    simp [FormatFullRoadName, hshields, hinfo, hj, hd, ht, hn,
      appendWithDelimiter_nil, appendWithDelimiter_one, appendWithDelimiter_two,
      appendWithDelimiter_three, String.intercalate, String.intercalate.go]

/-- C9. Road name with exit info: when the junction reference or the destination reference
is non-empty and the shield resolver finds nothing, the result joins by "; ", in this
order, the junction reference, the destination reference, and the destination or else the
name, leaving out the empty ones; it does not depend on the reference of the road itself. -/
theorem FormatFullRoadName_with_exit_info (GetRoadShields : String → List String)
    (road : RoadNameInfo) (hshields : ∀ ref, GetRoadShields ref = [])
    (hexit : road.m_junction_ref ≠ "" ∨ road.m_destination_ref ≠ "") :
    FormatFullRoadName GetRoadShields road =
        "; ".intercalate
          ([road.m_junction_ref, road.m_destination_ref,
            if road.m_destination ≠ "" then road.m_destination else road.m_name].filter
              (fun part => decide (part ≠ ""))) ∧
    ∀ ref : String,
      FormatFullRoadName GetRoadShields { road with m_ref := ref } =
        FormatFullRoadName GetRoadShields road := by
  refine ⟨FormatFullRoadName_exit_parts GetRoadShields road hshields hexit, fun ref => ?_⟩
  rw [FormatFullRoadName_exit_parts GetRoadShields road hshields hexit,
    FormatFullRoadName_exit_parts GetRoadShields { road with m_ref := ref } hshields hexit]

/-- C9 (witness). Junction reference "12A", destination reference "I-95", name "Main St". -/
theorem FormatFullRoadName_with_exit_info_witness :
    (∀ ref, (fun _ : String => ([] : List String)) ref = []) ∧
    (exampleExitRoad.m_junction_ref ≠ "" ∨ exampleExitRoad.m_destination_ref ≠ "") ∧
    FormatFullRoadName (fun _ => []) exampleExitRoad = "12A; I-95; Main St" :=
  ⟨fun _ => rfl, Or.inl (by decide),
    (FormatFullRoadName_with_exit_info (fun _ => []) exampleExitRoad (fun _ => rfl)
      (Or.inl (by decide))).1.trans (by decide)⟩

/-- C8 (witness). Reference "CA-1" and name "Pacific Coast Hwy". -/
theorem FormatFullRoadName_without_exit_info_witness :
    (∀ ref, (fun _ : String => ([] : List String)) ref = []) ∧
    examplePlainRoad.m_junction_ref = "" ∧ examplePlainRoad.m_destination_ref = "" ∧
    FormatFullRoadName (fun _ => []) examplePlainRoad = "CA-1; Pacific Coast Hwy" :=
  ⟨fun _ => rfl, rfl, rfl,
    (FormatFullRoadName_without_exit_info (fun _ => []) examplePlainRoad (fun _ => rfl)
      rfl rfl).trans (by decide)⟩

/-- C10 (the code at the failing input). For junction reference "12A", an empty destination
reference, reference "I-95" and name "Main St" the formatter returns "12A; Main St": the
reference of the road is not put in the place of the missing destination reference. -/
theorem FormatFullRoadName_missing_destination_ref :
    exampleJunctionRoad.m_junction_ref = "12A" ∧ exampleJunctionRoad.m_destination_ref = "" ∧
    exampleJunctionRoad.m_ref = "I-95" ∧ exampleJunctionRoad.m_name = "Main St" ∧
    FormatFullRoadName (fun _ => []) exampleJunctionRoad = "12A; Main St" ∧
    FormatFullRoadName (fun _ => []) exampleJunctionRoad ≠ "12A; I-95; Main St" := by
  decide

/-- C6 (witness). A vehicle arrival at distance 0 and one at distance 50. -/
theorem GetYouArriveTextId_spec_witness :
    (exampleArrived.IsPedestrianNotification = false ∧
      exampleArrived.m_turnDir = CarDirection.ReachedYourDestination) ∧
    GetYouArriveTextId exampleArrived = "you_have_reached_the_destination" ∧
    (exampleArriveIn50.IsPedestrianNotification = false ∧
      exampleArriveIn50.m_turnDir = CarDirection.ReachedYourDestination) ∧
    GetYouArriveTextId exampleArriveIn50 = "destination" :=
  ⟨⟨rfl, rfl⟩,
    ((GetYouArriveTextId_spec exampleArrived).1 (Or.inl ⟨rfl, rfl⟩)).trans (by decide),
    ⟨rfl, rfl⟩,
    ((GetYouArriveTextId_spec exampleArriveIn50).1 (Or.inl ⟨rfl, rfl⟩)).trans (by decide)⟩

/-! ## Cleanup pass -/

/-! ### Generic facts about one replacement pass -/

theorem regex_replace_length_le (matchAt : List Char → Option Nat) (fmt : List Char)
    (hfmt : fmt.length = 1)
    (hm : ∀ u len, matchAt u = some len → 2 ≤ len ∧ len ≤ u.length) :
    ∀ (t : List Char) (skip : Nat),
      (regex_replace matchAt fmt skip t).length ≤ t.length - skip := by
  intro t
  induction t with
  | nil => intro skip; simp [regex_replace]
  | cons c rest ih =>
    intro skip
    cases skip with
    | succ k =>
      have := ih k
      simp only [regex_replace, List.length_cons]
      omega
    | zero =>
      cases hmatch : matchAt (c :: rest) with
      | none =>
        have := ih 0
        simp only [regex_replace, hmatch, List.length_cons]
        omega
      | some len =>
        cases len with
        | zero =>
          have := ih 0
          simp only [regex_replace, hmatch, List.length_cons]
          omega
        | succ k =>
          have := ih k
          have hb := hm _ _ hmatch
          simp only [List.length_cons] at hb
          simp only [regex_replace, hmatch, List.length_append, hfmt, List.length_cons]
          omega

theorem regex_replace_no_match_of_length (matchAt : List Char → Option Nat) (fmt : List Char)
    (hfmt : fmt.length = 1)
    (hm : ∀ u len, matchAt u = some len → 2 ≤ len ∧ len ≤ u.length) :
    ∀ t : List Char, (regex_replace matchAt fmt 0 t).length = t.length →
      ∀ pre u, t = pre ++ u → matchAt u = none := by
  intro t
  induction t with
  | nil =>
    intro _ pre u hsplit
    have hu : u = [] := (List.append_eq_nil.mp hsplit.symm).2
    subst hu
    cases hmatch : matchAt [] with
    | none => rfl
    | some len =>
      have := hm _ _ hmatch
      simp at this
      omega
  | cons c rest ih =>
    intro hlen pre u hsplit
    cases hmatch : matchAt (c :: rest) with
    | some len =>
      exfalso
      have hb := hm _ _ hmatch
      simp only [List.length_cons] at hb
      cases len with
      | zero => omega
      | succ k =>
        have := regex_replace_length_le matchAt fmt hfmt hm rest k
        simp only [regex_replace, hmatch, List.length_append, hfmt, List.length_cons] at hlen
        omega
    | none =>
      simp only [regex_replace, hmatch, List.length_cons] at hlen
      have hrest := ih (by omega)
      cases pre with
      | nil =>
        simp only [List.nil_append] at hsplit
        rw [← hsplit]
        exact hmatch
      | cons p pre1 =>
        simp only [List.cons_append, List.cons.injEq] at hsplit
        exact hrest pre1 u hsplit.2

theorem regex_replace_of_no_match (matchAt : List Char → Option Nat) (fmt : List Char) :
    ∀ t : List Char, (∀ pre u, t = pre ++ u → matchAt u = none) →
      regex_replace matchAt fmt 0 t = t := by
  intro t
  induction t with
  | nil => intro _; simp [regex_replace]
  | cons c rest ih =>
    intro hno
    have hhead : matchAt (c :: rest) = none := hno [] (c :: rest) rfl
    have hrest := ih (fun pre u hsplit => hno (c :: pre) u (by simp [hsplit]))
    simp [regex_replace, hhead, hrest]

/-! ### The two patterns -/

theorem drop_length_takeWhile (p : Char → Bool) (l : List Char) :
    l.drop (l.takeWhile p).length = l.dropWhile p := by
  have h := List.drop_left (l.takeWhile p) (l.dropWhile p)
  rwa [List.takeWhile_append_dropWhile] at h

theorem length_takeWhile_le_length (p : Char → Bool) (l : List Char) :
    (l.takeWhile p).length ≤ l.length := by
  have h := congrArg List.length (List.takeWhile_append_dropWhile p l)
  simp only [List.length_append] at h
  omega

theorem rP_shape (u : List Char) (len : Nat) (h : rP u = some len) :
    ∃ run post, run ≠ [] ∧ (∀ c ∈ run, isFloatingPunctuation c = true) ∧
      u = ' ' :: (run ++ ' ' :: post) ∧ len = run.length + 2 := by
  cases u with
  | nil => simp [rP] at h
  | cons c rest =>
    simp only [rP] at h
    split_ifs at h with hcond
    simp only [Bool.and_eq_true, beq_iff_eq, Bool.not_eq_true', List.isEmpty_eq_false,
      drop_length_takeWhile] at hcond
    obtain ⟨⟨hc, hrun⟩, hhead⟩ := hcond
    cases hdrop : rest.dropWhile isFloatingPunctuation with
    | nil => simp [hdrop] at hhead
    | cons x post =>
      simp only [hdrop, List.head?_cons, Option.some.injEq] at hhead
      refine ⟨rest.takeWhile isFloatingPunctuation, post, hrun,
        fun a ha => List.mem_takeWhile_imp ha, ?_, ?_⟩
      · rw [hc, ← hhead, ← hdrop]
        simp
      · simpa using h.symm

theorem rP_of_shape (run post : List Char) (hrun : run ≠ [])
    (hpunct : ∀ c ∈ run, isFloatingPunctuation c = true) :
    rP (' ' :: (run ++ ' ' :: post)) = some (run.length + 2) := by
  have hsp : isFloatingPunctuation ' ' = false := by decide
  have htake : (run ++ ' ' :: post).takeWhile isFloatingPunctuation = run := by
    rw [List.takeWhile_append_of_pos hpunct]
    simp [List.takeWhile, hsp]
  simp [rP, htake, hrun]

theorem rP_bounds (u : List Char) (len : Nat) (h : rP u = some len) :
    2 ≤ len ∧ len ≤ u.length := by
  obtain ⟨run, post, _, _, hu, hlen⟩ := rP_shape u len h
  subst hu hlen
  simp

theorem rS_shape (u : List Char) (len : Nat) (h : rS u = some len) :
    ∃ a b post, isSpaceOrColon a = true ∧ isSpaceOrColon b = true ∧ u = a :: b :: post := by
  simp only [rS] at h
  split_ifs at h with hcond
  match u, hcond with
  | a :: b :: post, hcond =>
    refine ⟨a, b, post, ?_, ?_, rfl⟩
    · by_contra ha
      simp [List.takeWhile, ha] at hcond
    · by_contra hb
      by_cases ha : isSpaceOrColon a = true
      · simp [List.takeWhile, ha, hb] at hcond
      · simp [List.takeWhile, ha] at hcond
  | [a], hcond =>
    have := length_takeWhile_le_length isSpaceOrColon [a]
    simp at this
    omega
  | [], hcond => simp at hcond

theorem rS_of_shape (a b : Char) (post : List Char) (ha : isSpaceOrColon a = true)
    (hb : isSpaceOrColon b = true) : rS (a :: b :: post) ≠ none := by
  simp [rS, List.takeWhile, ha, hb]

theorem rS_bounds (u : List Char) (len : Nat) (h : rS u = some len) :
    2 ≤ len ∧ len ≤ u.length := by
  simp only [rS] at h
  split_ifs at h with hcond
  have hle := length_takeWhile_le_length isSpaceOrColon u
  simp only [Option.some.injEq] at h
  omega

/-! ### The cleanup pass -/

theorem removeFloating_eq_self_iff (t : List Char) :
    regex_replace rP [' '] 0 t = t ↔
      ¬ ∃ pre run post, run ≠ [] ∧ (∀ c ∈ run, isFloatingPunctuation c = true) ∧
          t = pre ++ ' ' :: (run ++ ' ' :: post) := by
  constructor
  · rintro heq ⟨pre, run, post, hrun, hpunct, hsplit⟩
    have hno := regex_replace_no_match_of_length rP [' '] rfl rP_bounds t (by rw [heq])
      pre (' ' :: (run ++ ' ' :: post)) hsplit
    rw [rP_of_shape run post hrun hpunct] at hno
    exact Option.noConfusion hno
  · intro hno
    apply regex_replace_of_no_match
    intro pre u hsplit
    cases hmatch : rP u with
    | none => rfl
    | some len =>
      obtain ⟨run, post, hrun, hpunct, hu, _⟩ := rP_shape u len hmatch
      exact absurd ⟨pre, run, post, hrun, hpunct, hu ▸ hsplit⟩ hno

theorem removeRepetitious_eq_self_iff (t : List Char) :
    regex_replace rS [' '] 0 t = t ↔
      ¬ ∃ pre a b post, isSpaceOrColon a = true ∧ isSpaceOrColon b = true ∧
          t = pre ++ a :: b :: post := by
  constructor
  · rintro heq ⟨pre, a, b, post, ha, hb, hsplit⟩
    have hno := regex_replace_no_match_of_length rS [' '] rfl rS_bounds t (by rw [heq])
      pre (a :: b :: post) hsplit
    exact rS_of_shape a b post ha hb hno
  · intro hno
    apply regex_replace_of_no_match
    intro pre u hsplit
    cases hmatch : rS u with
    | none => rfl
    | some len =>
      obtain ⟨a, b, post, ha, hb, hu⟩ := rS_shape u len hmatch
      exact absurd ⟨pre, a, b, post, ha, hb, hu ▸ hsplit⟩ hno

theorem trimLeadingSpaces_length_le (t : List Char) :
    (trimLeadingSpaces t).length ≤ t.length := by
  have h := congrArg List.length (List.takeWhile_append_dropWhile (fun c => c == ' ') t)
  simp only [List.length_append] at h
  simp only [trimLeadingSpaces]
  omega

theorem cleanOutChars_eq_self_iff (t : List Char) :
    cleanOutChars t = t ↔
      regex_replace rP [' '] 0 t = t ∧ regex_replace rS [' '] 0 t = t ∧
        trimLeadingSpaces t = t := by
  constructor
  · intro heq
    have h1 := regex_replace_length_le rP [' '] rfl rP_bounds t 0
    have h2 := regex_replace_length_le rS [' '] rfl rS_bounds (regex_replace rP [' '] 0 t) 0
    have h3 := trimLeadingSpaces_length_le
      (regex_replace rS [' '] 0 (regex_replace rP [' '] 0 t))
    have hlen := congrArg List.length heq
    simp only [cleanOutChars] at hlen heq
    have hP : regex_replace rP [' '] 0 t = t :=
      regex_replace_of_no_match rP [' '] t
        (regex_replace_no_match_of_length rP [' '] rfl rP_bounds t (by omega))
    rw [hP] at heq hlen h2 h3
    have hS : regex_replace rS [' '] 0 t = t :=
      regex_replace_of_no_match rS [' '] t
        (regex_replace_no_match_of_length rS [' '] rfl rS_bounds t (by omega))
    rw [hS] at heq
    exact ⟨hP, hS, heq⟩
  · rintro ⟨hP, hS, hL⟩
    simp only [cleanOutChars, hP, hS, hL]

theorem trimLeadingSpaces_cleanOutChars (t : List Char) :
    trimLeadingSpaces (cleanOutChars t) = cleanOutChars t := by
  simp only [cleanOutChars, trimLeadingSpaces, List.dropWhile_idempotent]

/-! ### Runs of spaces and colons after the second pass -/

theorem regex_replace_skip (matchAt : List Char → Option Nat) (fmt : List Char) :
    ∀ (xs tail : List Char),
      regex_replace matchAt fmt xs.length (xs ++ tail) = regex_replace matchAt fmt 0 tail := by
  intro xs
  induction xs with
  | nil => intro tail; rfl
  | cons x rest ih =>
    intro tail
    simp only [List.length_cons, List.cons_append, regex_replace]
    exact ih tail

theorem rS_of_not_class (c : Char) (rest : List Char) (hc : isSpaceOrColon c = false) :
    rS (c :: rest) = none := by
  simp [rS, List.takeWhile, hc]

theorem removeRepetitious_head (t : List Char)
    (ht : ∀ c ∈ t.head?, isSpaceOrColon c = false) :
    ∀ y ∈ (regex_replace rS [' '] 0 t).head?, isSpaceOrColon y = false := by
  cases t with
  | nil => simp [regex_replace]
  | cons d rest =>
    have hd : isSpaceOrColon d = false := ht d (by simp)
    simp [regex_replace, rS_of_not_class d rest hd, hd]

theorem dropWhile_head_not_class (l : List Char) :
    ∀ c ∈ (l.dropWhile isSpaceOrColon).head?, isSpaceOrColon c = false := by
  intro c hc
  have h := List.head?_dropWhile_not isSpaceOrColon l
  cases hd : (l.dropWhile isSpaceOrColon).head? with
  | none => simp [hd] at hc
  | some x =>
    simp only [hd] at h
    simp only [hd, Option.mem_def, Option.some.injEq] at hc
    exact hc ▸ h

theorem removeRepetitious_chain :
    ∀ (n : Nat) (u : List Char), u.length ≤ n → n < 100 →
      List.Chain' (fun a b => ¬ (isSpaceOrColon a = true ∧ isSpaceOrColon b = true))
        (regex_replace rS [' '] 0 u) := by
  intro n
  induction n with
  | zero =>
    intro u hu _
    have : u = [] := List.length_eq_zero.mp (by omega)
    subst this
    simp [regex_replace]
  | succ n ih =>
    intro u hu hn
    cases u with
    | nil => simp [regex_replace]
    | cons c rest =>
      simp only [List.length_cons] at hu
      have hsplit := List.takeWhile_append_dropWhile isSpaceOrColon rest
      have hlen := congrArg List.length hsplit
      simp only [List.length_append] at hlen
      by_cases hc : isSpaceOrColon c = true
      · -- the run starting at `c` is followed by `dropWhile isSpaceOrColon rest`
        have htail := ih (rest.dropWhile isSpaceOrColon) (by omega) (by omega)
        have hhead := removeRepetitious_head (rest.dropWhile isSpaceOrColon)
          (dropWhile_head_not_class rest)
        cases hrun : rest.takeWhile isSpaceOrColon with
        | nil =>
          have hrest : rest.dropWhile isSpaceOrColon = rest := by
            rw [hrun] at hsplit
            simpa using hsplit
          have hnone : rS (c :: rest) = none := by
            simp [rS, List.takeWhile, hc, hrun]
          rw [hrest] at htail hhead
          simp only [regex_replace, hnone]
          refine List.Chain'.cons' htail ?_
          intro y hy
          simp [hhead y hy]
        | cons d ds =>
          have hmatch : rS (c :: rest) = some (ds.length + 1 + 1) := by
            simp only [rS, List.takeWhile, hc, hrun, List.length_cons]
            rw [if_pos (by omega)]
            congr 1
            rw [hrun] at hlen
            simp only [List.length_cons] at hlen
            omega
          have hskip := regex_replace_skip rS [' '] (rest.takeWhile isSpaceOrColon)
            (rest.dropWhile isSpaceOrColon)
          rw [hsplit, hrun] at hskip
          simp only [List.length_cons] at hskip
          simp only [regex_replace, hmatch, hskip, List.singleton_append]
          refine List.Chain'.cons' htail ?_
          intro y hy
          simp [hhead y hy]
      · have hc2 : isSpaceOrColon c = false := by simpa using hc
        simp only [regex_replace, rS_of_not_class c rest hc2]
        refine List.Chain'.cons' (ih rest (by omega) (by omega)) ?_
        intro y _
        simp [hc2]

theorem chain_dropWhile (R : Char → Char → Prop) (p : Char → Bool) :
    ∀ l : List Char, List.Chain' R l → List.Chain' R (l.dropWhile p) := by
  intro l
  induction l with
  | nil => intro h; simp
  | cons x rest ih =>
    intro h
    by_cases hx : p x = true
    · simp only [List.dropWhile, hx]
      exact ih h.tail
    · simp only [List.dropWhile, hx]
      exact h

theorem chain_no_pair (R : Char → Char → Prop) :
    ∀ (pre : List Char) (a b : Char) (post : List Char),
      List.Chain' R (pre ++ a :: b :: post) → R a b := by
  intro pre
  induction pre with
  | nil =>
    intro a b post h
    exact (List.chain'_cons.mp h).1
  | cons p rest ih =>
    intro a b post h
    exact ih a b post h.tail

theorem cleanOutChars_no_repetition (t : List Char) (ht : t.length < 100) :
    ¬ ∃ pre a b post, isSpaceOrColon a = true ∧ isSpaceOrColon b = true ∧
        cleanOutChars t = pre ++ a :: b :: post := by
  rintro ⟨pre, a, b, post, ha, hb, hsplit⟩
  have hlen := regex_replace_length_le rP [' '] rfl rP_bounds t 0
  have hchain := chain_dropWhile _ (fun c => c == ' ') _
    (removeRepetitious_chain 99 (regex_replace rP [' '] 0 t) (by omega) (by omega))
  have hchain2 : List.Chain' (fun a b => ¬ (isSpaceOrColon a = true ∧ isSpaceOrColon b = true))
      (cleanOutChars t) := hchain
  rw [hsplit] at hchain2
  exact chain_no_pair _ pre a b post hchain2 ⟨ha, hb⟩

/-- C1 (as amended). A second run of the cleanup pass changes nothing exactly when the first
run left neither a floating punctuation group (a space, one or more of `, . : ;`, a space)
nor two adjacent characters that are spaces or colons. For a text of fewer than 100
characters the first run leaves no two adjacent spaces or colons, and the result of the pass
never starts with a space. -/
theorem cleanOut_idempotent_iff (ttsOut : String) :
    (cleanOut (cleanOut ttsOut) = cleanOut ttsOut ↔
      (¬ ∃ pre run post, run ≠ [] ∧ (∀ c ∈ run, isFloatingPunctuation c = true) ∧
          (cleanOut ttsOut).data = pre ++ ' ' :: (run ++ ' ' :: post)) ∧
      (¬ ∃ pre a b post, isSpaceOrColon a = true ∧ isSpaceOrColon b = true ∧
          (cleanOut ttsOut).data = pre ++ a :: b :: post)) ∧
    (ttsOut.length < 100 →
      ¬ ∃ pre a b post, isSpaceOrColon a = true ∧ isSpaceOrColon b = true ∧
          (cleanOut ttsOut).data = pre ++ a :: b :: post) ∧
    (cleanOut ttsOut).data.head? ≠ some ' ' := by
  have hdata : (cleanOut ttsOut).data = cleanOutChars ttsOut.data := rfl
  have hiff : cleanOut (cleanOut ttsOut) = cleanOut ttsOut ↔
      cleanOutChars (cleanOutChars ttsOut.data) = cleanOutChars ttsOut.data := by
    constructor
    · intro h
      exact congrArg String.data h
    · intro h
      exact congrArg String.mk h
  refine ⟨?_, ?_, ?_⟩
  · rw [hiff, hdata, cleanOutChars_eq_self_iff, removeFloating_eq_self_iff,
      removeRepetitious_eq_self_iff]
    constructor
    · rintro ⟨hP, hS, _⟩
      exact ⟨hP, hS⟩
    · rintro ⟨hP, hS⟩
      exact ⟨hP, hS, trimLeadingSpaces_cleanOutChars _⟩
  · intro hlen
    rw [hdata]
    exact cleanOutChars_no_repetition ttsOut.data hlen
  · rw [hdata]
    intro hhead
    have htrim := trimLeadingSpaces_cleanOutChars ttsOut.data
    cases hc : cleanOutChars ttsOut.data with
    | nil => simp [hc] at hhead
    | cons x rest =>
      simp only [hc, List.head?_cons, Option.some.injEq] at hhead
      subst hhead
      have hlen := congrArg List.length htrim
      have hle := trimLeadingSpaces_length_le rest
      simp only [hc, trimLeadingSpaces, List.dropWhile, beq_self_eq_true, List.length_cons]
        at hlen
      simp only [trimLeadingSpaces] at hle
      omega

/-- C1 (counterexample). Two punctuation groups that share a space: the first run of the
cleanup pass leaves a floating comma, which a second run removes. -/
theorem cleanOut_not_idempotent :
    cleanOut "a , , b" = "a , b" ∧ cleanOut (cleanOut "a , , b") = "a b" ∧
    cleanOut (cleanOut "a , , b") ≠ cleanOut "a , , b" := by
  decide

/-! ## Distance quantizer: selected position -/

theorem DistToTextId_eq_key_at_pos (table : List (Nat × String)) (dist : Nat) :
    DistToTextId table dist =
      match DistToTextPos table dist with
      | none => ""
      | some pos => ((table[pos]?).map Prod.snd).getD "" := by
  unfold DistToTextId DistToTextPos
  simp only []
  cases hit : table[lower_bound table dist]? with
  | none => rfl
  | some cur =>
    by_cases h0 : lower_bound table dist = 0
    · simp [h0, hit]
      rw [h0] at hit
      simp [hit]
    · simp only [ne_eq, h0, not_false_eq_true, if_true]
      cases hprev : table[lower_bound table dist - 1]? with
      | none => simp [hit]
      | some iPrev =>
        by_cases hc : mul32 (sub32 dist iPrev.1) 2 < sub32 cur.1 dist
        · simp [hc, hprev]
        · simp [hc, hit]

theorem DistToTextPos_of_split (pre post : List (Nat × String)) (cur : Nat × String)
    (dist : Nat) (hpre : ∀ p ∈ pre, p.1 < dist) (hcur : dist ≤ cur.1) :
    DistToTextPos (pre ++ cur :: post) dist =
      match pre.getLast? with
      | none => some pre.length
      | some iPrev =>
        if mul32 (sub32 dist iPrev.1) 2 < sub32 cur.1 dist then some (pre.length - 1)
        else some pre.length := by
  have hlb := lower_bound_append pre post cur dist hpre hcur
  rcases List.eq_nil_or_concat pre with hnil | ⟨init, last, hconcat⟩
  · subst hnil
    simp only [List.nil_append, List.length_nil] at hlb
    simp [DistToTextPos, hlb]
  · subst hconcat
    simp only [List.concat_eq_append, List.append_assoc, List.singleton_append,
      List.length_append, List.length_singleton] at hlb
    have h1 : (init ++ last :: cur :: post)[init.length + 1]? = some cur := by
      rw [List.getElem?_append_right (by omega)]
      simp
    have h0 : (init ++ last :: cur :: post)[init.length]? = some last := by
      rw [List.getElem?_append_right (by omega)]
      simp
    simp [DistToTextPos, hlb, h1, h0]

theorem lower_bound_mono (table : List (Nat × String)) (d1 d2 : Nat) (h12 : d1 ≤ d2) :
    lower_bound table d1 ≤ lower_bound table d2 := by
  induction table with
  | nil => simp [lower_bound]
  | cons a rest ih =>
    simp only [lower_bound] at ih ⊢
    by_cases h1 : a.1 < d1
    · have h2 : a.1 < d2 := by omega
      simp only [List.takeWhile, h1, h2, decide_True, List.length_cons]
      omega
    · simp [List.takeWhile, h1]

theorem DistToTextPos_bounds (pre post : List (Nat × String)) (cur : Nat × String)
    (dist : Nat) (hpre : ∀ p ∈ pre, p.1 < dist) (hcur : dist ≤ cur.1) :
    ∃ pos, DistToTextPos (pre ++ cur :: post) dist = some pos ∧
      pre.length - 1 ≤ pos ∧ pos ≤ pre.length := by
  rw [DistToTextPos_of_split pre post cur dist hpre hcur]
  cases pre.getLast? with
  | none => exact ⟨pre.length, rfl, by omega, le_refl _⟩
  | some iPrev =>
    by_cases hc : mul32 (sub32 dist iPrev.1) 2 < sub32 cur.1 dist
    · exact ⟨pre.length - 1, by simp [hc], le_refl _, by omega⟩
    · exact ⟨pre.length, by simp [hc], by omega, le_refl _⟩

theorem sub32_self (t : Nat) : sub32 t t = 0 := by
  simp only [sub32, kUint32Modulus]
  have : t % 2 ^ 32 < 2 ^ 32 := Nat.mod_lt _ (by norm_num)
  omega

theorem DistToTextPos_mono_of_split (pre1 post1 pre2 post2 : List (Nat × String))
    (cur1 cur2 : Nat × String) (d1 d2 : Nat)
    (heq : pre1 ++ cur1 :: post1 = pre2 ++ cur2 :: post2)
    (hbound : ∀ p ∈ pre1 ++ cur1 :: post1, p.1 < 2 ^ 31)
    (h12 : d1 ≤ d2)
    (hpre1 : ∀ p ∈ pre1, p.1 < d1) (hcur1 : d1 ≤ cur1.1)
    (hpre2 : ∀ p ∈ pre2, p.1 < d2) (hcur2 : d2 ≤ cur2.1) :
    ∃ pos1 pos2, DistToTextPos (pre1 ++ cur1 :: post1) d1 = some pos1 ∧
      DistToTextPos (pre1 ++ cur1 :: post1) d2 = some pos2 ∧ pos1 ≤ pos2 := by
  have hl1 := lower_bound_append pre1 post1 cur1 d1 hpre1 hcur1
  have hl2 := lower_bound_append pre2 post2 cur2 d2 hpre2 hcur2
  have hmono := lower_bound_mono (pre1 ++ cur1 :: post1) d1 d2 h12
  rw [hl1, heq, hl2] at hmono
  rcases Nat.lt_or_ge pre1.length pre2.length with hlt | hge
  · obtain ⟨pos1, hp1, _, hup1⟩ := DistToTextPos_bounds pre1 post1 cur1 d1 hpre1 hcur1
    obtain ⟨pos2, hp2, hlo2, _⟩ := DistToTextPos_bounds pre2 post2 cur2 d2 hpre2 hcur2
    exact ⟨pos1, pos2, hp1, heq ▸ hp2, by omega⟩
  · have hlen : pre1.length = pre2.length := by omega
    obtain ⟨hpre, hrest⟩ := List.append_inj heq hlen
    have hcur : cur1 = cur2 := (List.cons.inj hrest).1
    have hpost : post1 = post2 := (List.cons.inj hrest).2
    subst hpre hcur hpost
    have hhi : cur1.1 < 2 ^ 31 := hbound cur1 (by simp)
    rw [DistToTextPos_of_split pre1 post1 cur1 d1 hpre1 hcur1,
      DistToTextPos_of_split pre1 post1 cur1 d2 hpre2 hcur2]
    cases hlast : pre1.getLast? with
    | none => exact ⟨pre1.length, pre1.length, rfl, rfl, le_refl _⟩
    | some iPrev =>
      have hmem : iPrev ∈ pre1 := List.mem_of_getLast?_eq_some hlast
      have hlo1 : iPrev.1 < d1 := hpre1 _ hmem
      simp only []
      rw [sub32_of_le d1 iPrev.1 (by omega) (by omega), sub32_of_le cur1.1 d1 hcur1 (by omega),
        mul32_two_of_lt (d1 - iPrev.1) (by omega),
        sub32_of_le d2 iPrev.1 (by omega) (by omega), sub32_of_le cur1.1 d2 hcur2 (by omega),
        mul32_two_of_lt (d2 - iPrev.1) (by omega)]
      by_cases hc2 : (d2 - iPrev.1) * 2 < cur1.1 - d2
      · have hc1 : (d1 - iPrev.1) * 2 < cur1.1 - d1 := by omega
        exact ⟨pre1.length - 1, pre1.length - 1, by simp [hc1], by simp [hc2], le_refl _⟩
      · by_cases hc1 : (d1 - iPrev.1) * 2 < cur1.1 - d1
        · exact ⟨pre1.length - 1, pre1.length, by simp [hc1], by simp [hc2], by omega⟩
        · exact ⟨pre1.length, pre1.length, by simp [hc1], by simp [hc2], le_refl _⟩

theorem strictly_sorted_below (pre post : List (Nat × String)) (cur : Nat × String)
    (hsorted : ((pre ++ cur :: post).map Prod.fst).Sorted (· < ·)) :
    ∀ p ∈ pre, p.1 < cur.1 := by
  intro p hp
  have hs : (pre.map Prod.fst ++ (cur :: post).map Prod.fst).Sorted (· < ·) := by
    simpa using hsorted
  exact (List.pairwise_append.mp hs).2.2 p.1 (List.mem_map_of_mem _ hp) cur.1 (by simp)

/-- C20. The distance quantizer is monotone: for a table sorted strictly ascending by
threshold, with thresholds below `2 ^ 31`, and distances `d1 ≤ d2` that do not exceed the
largest threshold, the position of the entry selected for `d1` is not after the position
of the entry selected for `d2`; a distance equal to a threshold selects the entry of that
threshold. The selected position is the one whose key `DistToTextId` returns. -/
theorem DistToTextPos_monotone (table : List (Nat × String)) (d1 d2 : Nat)
    (hsorted : (table.map Prod.fst).Sorted (· < ·))
    (hbound : ∀ p ∈ table, p.1 < 2 ^ 31)
    (h12 : d1 ≤ d2) (hmax : ∃ p ∈ table, d2 ≤ p.1) :
    (∀ d, DistToTextId table d =
      match DistToTextPos table d with
      | none => ""
      | some pos => ((table[pos]?).map Prod.snd).getD "") ∧
    (∃ pos1 pos2, DistToTextPos table d1 = some pos1 ∧ DistToTextPos table d2 = some pos2 ∧
      pos1 ≤ pos2) ∧
    (∀ pre threshold key post, table = pre ++ (threshold, key) :: post →
      DistToTextPos table threshold = some pre.length) := by
  refine ⟨DistToTextId_eq_key_at_pos table, ?_, ?_⟩
  · obtain ⟨pmax, hpmax, hd2⟩ := hmax
    rcases first_not_below table d1 with hall | ⟨pre1, cur1, post1, heq1, hpre1, hcur1⟩
    · exact absurd (hall pmax hpmax) (by omega)
    rcases first_not_below table d2 with hall | ⟨pre2, cur2, post2, heq2, hpre2, hcur2⟩
    · exact absurd (hall pmax hpmax) (by omega)
    have := DistToTextPos_mono_of_split pre1 post1 pre2 post2 cur1 cur2 d1 d2
      (heq1 ▸ heq2) (heq1 ▸ hbound) h12 hpre1 hcur1 hpre2 hcur2
    rw [heq1]
    exact this
  · intro pre threshold key post heq
    subst heq
    have hpre := strictly_sorted_below pre post (threshold, key) hsorted
    rw [DistToTextPos_of_split pre post (threshold, key) threshold hpre (le_refl _)]
    cases pre.getLast? with
    | none => rfl
    | some iPrev =>
      simp only [sub32_self, Nat.not_lt_zero, if_false]

/-- C20 (witness). The table `{100 -> "A", 200 -> "B"}` at the distances 130 and 140. -/
theorem DistToTextPos_monotone_witness :
    ((([((100 : Nat), "A"), (200, "B")]).map Prod.fst).Sorted (· < ·)) ∧
    (∀ p ∈ [((100 : Nat), "A"), (200, "B")], p.1 < 2 ^ 31) ∧
    130 ≤ 140 ∧ (∃ p ∈ [((100 : Nat), "A"), (200, "B")], 140 ≤ p.1) ∧
    DistToTextPos [(100, "A"), (200, "B")] 130 = some 0 ∧
    DistToTextPos [(100, "A"), (200, "B")] 140 = some 1 ∧
    ∃ pos1 pos2, DistToTextPos [(100, "A"), (200, "B")] 130 = some pos1 ∧
      DistToTextPos [(100, "A"), (200, "B")] 140 = some pos2 ∧ pos1 ≤ pos2 :=
  ⟨by decide, by decide, by decide, by decide, by decide, by decide,
    (DistToTextPos_monotone [(100, "A"), (200, "B")] 130 140 (by decide) (by decide)
      (by decide) (by decide)).2.1⟩

/-! ## Sentence assembler -/

theorem GetTurnNotification_of_no_direction_text (self : GetTtsText) (ext : Collaborators)
    (n : Notification) (h : self.GetTextById (GetDirectionTextId n) = "") :
    self.GetTurnNotification ext n = "" := by
  unfold GetTtsText.GetTurnNotification
  simp only [h]
  split_ifs <;> rfl

theorem GetTurnNotification_bare (self : GetTtsText) (ext : Collaborators) (n : Notification)
    (hdist : n.m_distanceUnits = 0) (hthen : n.m_useThenInsteadOfDistance = false)
    (hempty : n.m_nextStreetInfo.empty = true) :
    self.GetTurnNotification ext n = self.GetTextById (GetDirectionTextId n) := by
  unfold GetTtsText.GetTurnNotification
  simp only [hdist, hthen, hempty, and_self, if_true]

/-- C11. No-street output of the sentence assembler: when the formatted street name is
empty, the direction text is non-empty and the early guards pass, the result is
`thenStr + distStr + " " + dirStr` for a non-empty `distStr` (without the space in the
locale "ja") and `thenStr + dirStr` otherwise. Here `thenStr` is the text of "then"
followed by a space (by nothing in the locale "ja") under then-phrasing and empty without
it, and `distStr` is the text of the distance key for a positive distance and empty for
distance 0. With an empty next-street info, distance 0 and no then-phrasing the result is
the resolved direction text. -/
theorem GetTurnNotification_without_street (self : GetTtsText) (ext : Collaborators)
    (n : Notification)
    (hstreet : FormatFullRoadName ext.GetRoadShields n.m_nextStreetInfo = "")
    (hdir : self.GetTextById (GetDirectionTextId n) ≠ "")
    (hguardPedestrian : ¬ (n.IsPedestrianNotification = true ∧
      n.m_useThenInsteadOfDistance = true ∧
      n.m_turnDirPedestrian = PedestrianDirection.None))
    (hguardVehicle : ¬ (n.m_useThenInsteadOfDistance = true ∧
      n.m_turnDir = CarDirection.None)) :
    (∀ thenStr distStr dirStr : String,
      thenStr = (if n.m_useThenInsteadOfDistance = true then
          (if self.GetLocale = "ja" then self.GetTextById "then"
            else self.GetTextById "then" ++ " ")
        else "") →
      distStr = (if 0 < n.m_distanceUnits then self.GetTextById (GetDistanceTextId ext n)
        else "") →
      dirStr = self.GetTextById (GetDirectionTextId n) →
      self.GetTurnNotification ext n =
        if distStr ≠ "" then
          if self.GetLocale = "ja" then thenStr ++ distStr ++ dirStr
          else thenStr ++ distStr ++ " " ++ dirStr
        else thenStr ++ dirStr) ∧
    (n.m_distanceUnits = 0 → n.m_useThenInsteadOfDistance = false →
      n.m_nextStreetInfo.empty = true →
      self.GetTurnNotification ext n = self.GetTextById (GetDirectionTextId n)) := by
  refine ⟨?_, GetTurnNotification_bare self ext n⟩
  intro thenStr distStr dirStr hthenStr hdistStr hdirStr
  have hthen : self.thenStr n = thenStr := by
    rw [hthenStr]
    unfold GetTtsText.thenStr
    by_cases hu : n.m_useThenInsteadOfDistance = true
    · by_cases hja : self.GetLocale = "ja"
      · simp [hu, hja]
      · simp [hu, hja]
    · simp [hu]
  have hdist : self.distStr ext n = distStr := by
    rw [hdistStr]
    unfold GetTtsText.distStr
    by_cases hpos : 0 < n.m_distanceUnits
    · simp [hpos]
    · simp [hpos]
  subst hdirStr
  by_cases hbare : n.m_distanceUnits = 0 ∧ n.m_useThenInsteadOfDistance = false ∧
      n.m_nextStreetInfo.empty = true
  · rw [GetTurnNotification_bare self ext n hbare.1 hbare.2.1 hbare.2.2]
    have hd : distStr = "" := by rw [hdistStr]; simp [hbare.1]
    have ht : thenStr = "" := by rw [hthenStr]; simp [hbare.2.1]
    simp [hd, ht]
  · unfold GetTtsText.GetTurnNotification
    simp only [hbare, hguardPedestrian, hguardVehicle, hdir, hstreet, if_false, ne_eq,
      not_true_eq_false, hthen, hdist]
    by_cases hd : distStr = ""
    · simp [hd]
    · by_cases hja : self.GetLocale = "ja"
      · simp [hd, hja]
      · simp [hd, hja]

/-- C11 (witness). "Turn left" without a street name: in 100 meters, with then-phrasing,
and with both; in the locale "ja" the parts are joined without spaces. -/
theorem GetTurnNotification_without_street_witness :
    FormatFullRoadName exampleCollaborators.GetRoadShields
      exampleLeftIn100.m_nextStreetInfo = "" ∧
    exampleEnglish.GetTextById (GetDirectionTextId exampleLeftIn100) ≠ "" ∧
    exampleEnglish.GetTurnNotification exampleCollaborators exampleLeftIn100 =
      "In 100 meters Turn left" ∧
    exampleEnglish.GetTurnNotification exampleCollaborators exampleThenLeft =
      "Then Turn left" ∧
    exampleEnglish.GetTurnNotification exampleCollaborators exampleThenLeftIn100 =
      "Then In 100 meters Turn left" ∧
    exampleJapanese.GetTurnNotification exampleCollaborators exampleThenLeft =
      "その先左折です" ∧
    exampleJapanese.GetTurnNotification exampleCollaborators exampleThenLeftIn100 =
      "その先100メートル先左折です" :=
  ⟨by decide, by decide,
    ((GetTurnNotification_without_street exampleEnglish exampleCollaborators exampleLeftIn100
      (by decide) (by decide) (by decide) (by decide)).1
        "" "In 100 meters" "Turn left" (by decide) (by decide) (by decide)).trans (by decide),
    ((GetTurnNotification_without_street exampleEnglish exampleCollaborators exampleThenLeft
      (by decide) (by decide) (by decide) (by decide)).1
        "Then " "" "Turn left" (by decide) (by decide) (by decide)).trans (by decide),
    ((GetTurnNotification_without_street exampleEnglish exampleCollaborators
      exampleThenLeftIn100 (by decide) (by decide) (by decide) (by decide)).1
        "Then " "In 100 meters" "Turn left" (by decide) (by decide) (by decide)).trans
          (by decide),
    ((GetTurnNotification_without_street exampleJapanese exampleCollaborators exampleThenLeft
      (by decide) (by decide) (by decide) (by decide)).1
        "その先" "" "左折です" (by decide) (by decide) (by decide)).trans (by decide),
    ((GetTurnNotification_without_street exampleJapanese exampleCollaborators
      exampleThenLeftIn100 (by decide) (by decide) (by decide) (by decide)).1
        "その先" "100メートル先" "左折です" (by decide) (by decide) (by decide)).trans
          (by decide)⟩

/-- C12 (as amended). A direction key without text silences the notification: when the
text of the direction key is empty, `GetTurnNotification` returns the empty string. -/
theorem GetTurnNotification_silent_without_direction (self : GetTtsText)
    (ext : Collaborators) (n : Notification)
    (h : self.GetTextById (GetDirectionTextId n) = "") :
    self.GetTurnNotification ext n = "" :=
  GetTurnNotification_of_no_direction_text self ext n h

/-- C12 (witness). A right turn in a text source that has no text for it. -/
theorem GetTurnNotification_silent_without_direction_witness :
    exampleEnglish.GetTextById (GetDirectionTextId exampleRightIn100) = "" ∧
    exampleEnglish.GetTurnNotification exampleCollaborators exampleRightIn100 = "" :=
  ⟨by decide,
    GetTurnNotification_silent_without_direction exampleEnglish exampleCollaborators
      exampleRightIn100 (by decide)⟩

/-- C12 (counterexample). With a distance above 0 whose distance key has no text the
result is the bare direction text, and with then-phrasing whose "then" has no text the
result is a space followed by the direction text: neither is empty. -/
theorem GetTurnNotification_partial_sentence :
    exampleDirectionOnly.GetTextById (GetDistanceTextId exampleCollaborators exampleLeftIn100)
      = "" ∧
    exampleDirectionOnly.GetTurnNotification exampleCollaborators exampleLeftIn100
      = "Turn left" ∧
    exampleDirectionOnly.GetTextById "then" = "" ∧
    exampleDirectionOnly.GetTurnNotification exampleCollaborators exampleThenLeft
      = " Turn left" := by
  decide

/-- C13 (the code at the failing input). A pedestrian notification with then-phrasing and
the direction `TurnLeft`, whose texts "Then" and "Turn left" exist, gets the empty string:
its vehicle direction is `None`, so the guard on the vehicle direction returns early. -/
theorem GetTurnNotification_pedestrian_then_is_silent :
    examplePedestrianThenLeft.IsPedestrianNotification = true ∧
    examplePedestrianThenLeft.m_turnDir = CarDirection.None ∧
    exampleEnglish.GetTextById (GetDirectionTextId examplePedestrianThenLeft) = "Turn left" ∧
    exampleEnglish.GetTextById "then" = "Then" ∧
    exampleEnglish.GetTurnNotification exampleCollaborators examplePedestrianThenLeft = "" := by
  decide

/-! ## Hungarian categorizer: shared lemmas -/

theorem Substring_at (init rest : List Char) (c : Char) :
    Substring (init ++ c :: rest) (init.length : Int) 1 = [c] := by
  simp [Substring]

theorem Substring_beyond (l : List Char) (i : Nat) (len : Nat) (h : l.length ≤ i) :
    Substring l (i : Int) len = [] := by
  simp [Substring, List.drop_eq_nil_of_le h]

theorem mk_singleton_eq_space (c : Char) : String.mk [c] = " " ↔ c = ' ' := by
  constructor
  · intro h
    have := congrArg String.data h
    simpa using this
  · rintro rfl
    rfl

theorem rNum_singleton (c : Char) : rNum (String.mk [c]) = c.isDigit := rfl

/-! ## Acronym and number detection -/

theorem endsInAcronymOrNumLoop_append (L : String → String) (init : List Char) :
    ∀ (n : Nat) (rest : List Char), n ≤ init.length →
      endsInAcronymOrNumLoop L (init ++ rest) n = endsInAcronymOrNumLoop L init n := by
  intro n
  induction n with
  | zero => intro rest _; rfl
  | succ i ih =>
    intro rest hi
    have hsplit : ∃ a c b, init = a ++ c :: b ∧ a.length = i := by
      refine ⟨init.take i, init.get ⟨i, by omega⟩, init.drop (i + 1), ?_, ?_⟩
      · simp
      · simp; omega
    obtain ⟨a, c, b, hinit, hlen⟩ := hsplit
    have h1 : Substring (init ++ rest) (i : Int) 1 = [c] := by
      rw [hinit, ← hlen, List.append_assoc, List.cons_append]
      exact Substring_at a (b ++ rest) c
    have h2 : Substring init (i : Int) 1 = [c] := by
      rw [hinit, ← hlen]
      exact Substring_at a b c
    simp only [endsInAcronymOrNumLoop, h1, h2, ih rest (by omega)]

theorem EndsInAcronymOrNum_token (L : String → String) (pre : List Char)
    (hpre : pre = [] ∨ pre.getLast? = some ' ') :
    ∀ token : List Char, ' ' ∉ token →
      (EndsInAcronymOrNum L (pre ++ token) = true ↔
        ∀ c ∈ token, c.isDigit = true ∨ L (String.mk [c]) ≠ String.mk [c]) := by
  intro token
  induction token using List.reverseRecOn with
  | nil =>
    intro _
    simp only [List.append_nil, List.not_mem_nil, false_implies, implies_true, iff_true]
    rcases hpre with rfl | hlast
    · rfl
    · obtain ⟨a, rfl⟩ : ∃ a, pre = a ++ [' '] := by
        rcases List.eq_nil_or_concat pre with hnil | ⟨a, b, hab⟩
        · simp [hnil] at hlast
        · subst hab
          simp at hlast
          exact ⟨a, by simp [hlast]⟩
      simp only [EndsInAcronymOrNum, List.length_append, List.length_singleton,
        endsInAcronymOrNumLoop]
      have h1 : Substring (a ++ [' ']) (a.length : Int) 1 = [' '] := Substring_at a [] ' '
      simp [h1]
  | append_singleton t c ih =>
    intro hspace
    have hc : c ≠ ' ' := by
      intro h
      exact hspace (by simp [h])
    have ht : ' ' ∉ t := fun h => hspace (by simp [h])
    have h1 : Substring (pre ++ (t ++ [c])) ((pre ++ t).length : Int) 1 = [c] := by
      rw [← List.append_assoc]
      exact Substring_at (pre ++ t) [] c
    have hlen : (pre ++ (t ++ [c])).length = (pre ++ t).length + 1 := by simp; omega
    have hloop : endsInAcronymOrNumLoop L (pre ++ (t ++ [c])) (pre ++ t).length =
        endsInAcronymOrNumLoop L (pre ++ t) (pre ++ t).length := by
      rw [← List.append_assoc]
      exact endsInAcronymOrNumLoop_append L (pre ++ t) _ [c] (le_refl _)
    have ih2 := ih ht
    simp only [EndsInAcronymOrNum] at ih2
    simp only [EndsInAcronymOrNum, hlen, endsInAcronymOrNumLoop, h1, mk_singleton_eq_space, hc,
      if_false, hloop]
    by_cases hbad : String.mk [c] = L (String.mk [c]) ∧ rNum (L (String.mk [c])) = false
    · rw [if_pos hbad]
      constructor
      · intro h
        exact absurd h (by simp)
      · intro h
        have hcc := h c (by simp)
        have hfixed := hbad.1
        have hnum := hbad.2
        rw [← hfixed, rNum_singleton] at hnum
        rcases hcc with hd | hl
        · simp [hd] at hnum
        · exact absurd hfixed.symm hl
    · rw [if_neg hbad, ih2]
      constructor
      · intro h x hx
        rcases List.mem_append.mp hx with hx | hx
        · exact h x hx
        · simp only [List.mem_singleton] at hx
          subst hx
          by_cases hl : L (String.mk [x]) = String.mk [x]
          · left
            have : ¬ rNum (L (String.mk [x])) = false := fun hr => hbad ⟨hl.symm, hr⟩
            rw [hl, rNum_singleton] at this
            simpa using this
          · right
            exact hl
      · intro h x hx
        exact h x (by simp [hx])

/-- C15. Acronym and number detection: `EndsInAcronymOrNum` is true exactly when every
character of the trailing token (the characters after the last space, or the whole text
when it has no space) is a digit or differs from its lower-case form. When it is true,
`CategorizeHungarianLastWordVowels` returns what the acronym and number path
`CategorizeHungarianAcronymsAndNumbers` returns; when it is false, hence as soon as one
character of the token is neither a digit nor different from its lower-case form,
`CategorizeHungarianLastWordVowels` returns what the backward scan of the word path
returns, started at the last index without an indeterminate vowel seen. -/
theorem EndsInAcronymOrNum_iff (MakeLowerCase : String → String) (pre token : List Char)
    (hpre : pre = [] ∨ pre.getLast? = some ' ') (htoken : ' ' ∉ token) :
    (EndsInAcronymOrNum MakeLowerCase (pre ++ token) = true ↔
      ∀ c ∈ token, c.isDigit = true ∨
        MakeLowerCase (String.mk [c]) ≠ String.mk [c]) ∧
    (EndsInAcronymOrNum MakeLowerCase (pre ++ token) = true →
      CategorizeHungarianLastWordVowels MakeLowerCase (String.mk (pre ++ token)) =
        CategorizeHungarianAcronymsAndNumbers (String.mk (pre ++ token))) ∧
    (EndsInAcronymOrNum MakeLowerCase (pre ++ token) = false →
      CategorizeHungarianLastWordVowels MakeLowerCase (String.mk (pre ++ token)) =
        lastWordVowelsLoop MakeLowerCase (String.mk (pre ++ token)) false
          (String.mk (pre ++ token)).utf8ByteSize) ∧
    ((∃ c ∈ token, c.isDigit = false ∧ MakeLowerCase (String.mk [c]) = String.mk [c]) →
      CategorizeHungarianLastWordVowels MakeLowerCase (String.mk (pre ++ token)) =
        lastWordVowelsLoop MakeLowerCase (String.mk (pre ++ token)) false
          (String.mk (pre ++ token)).utf8ByteSize) := by
  have hiff := EndsInAcronymOrNum_token MakeLowerCase pre hpre token htoken
  refine ⟨hiff, fun h => ?_, fun h => ?_, fun h => ?_⟩
  · simp [CategorizeHungarianLastWordVowels, h]
  · simp [CategorizeHungarianLastWordVowels, h]
  · obtain ⟨c, hc, hdigit, hlower⟩ := h
    have hfalse : EndsInAcronymOrNum MakeLowerCase (pre ++ token) = false := by
      cases hends : EndsInAcronymOrNum MakeLowerCase (pre ++ token) with
      | false => rfl
      | true =>
        rcases hiff.mp hends c hc with hd | hl
        · rw [hdigit] at hd
          exact absurd hd (by decide)
        · exact absurd hlower hl
    simp [CategorizeHungarianLastWordVowels, hfalse]

/-- C15 (witness). "ABC" and "M5" are detected and get the value of the acronym and number
path; "Rte5" and "Rte3" are not detected and get the value of the word path, which for
"Rte3" (front, by its last vowel "e") differs from the value of the acronym and number
path (back, by its last character "3"). -/
theorem EndsInAcronymOrNum_iff_witness :
    (([] : List Char) = [] ∨ ([] : List Char).getLast? = some ' ') ∧ ' ' ∉ "Rte5".data ∧
    EndsInAcronymOrNum exampleMakeLowerCase "ABC".data = true ∧
    EndsInAcronymOrNum exampleMakeLowerCase "M5".data = true ∧
    EndsInAcronymOrNum exampleMakeLowerCase "Rte5".data = false ∧
    EndsInAcronymOrNum exampleMakeLowerCase "Rte3".data = false ∧
    (EndsInAcronymOrNum exampleMakeLowerCase ([] ++ "Rte5".data) = true ↔
      ∀ c ∈ "Rte5".data, c.isDigit = true ∨
        exampleMakeLowerCase (String.mk [c]) ≠ String.mk [c]) ∧
    CategorizeHungarianLastWordVowels exampleMakeLowerCase "ABC" =
      CategorizeHungarianAcronymsAndNumbers "ABC" ∧
    CategorizeHungarianLastWordVowels exampleMakeLowerCase "M5" =
      CategorizeHungarianAcronymsAndNumbers "M5" ∧
    CategorizeHungarianLastWordVowels exampleMakeLowerCase "Rte5" =
      lastWordVowelsLoop exampleMakeLowerCase "Rte5" false 4 ∧
    CategorizeHungarianLastWordVowels exampleMakeLowerCase "Rte3" =
      lastWordVowelsLoop exampleMakeLowerCase "Rte3" false 4 ∧
    lastWordVowelsLoop exampleMakeLowerCase "Rte5" false 4 = 1 ∧
    lastWordVowelsLoop exampleMakeLowerCase "Rte3" false 4 = 1 ∧
    CategorizeHungarianLastWordVowels exampleMakeLowerCase "Rte3" = 1 ∧
    CategorizeHungarianAcronymsAndNumbers "Rte3" = 2 :=
  ⟨Or.inl rfl, by decide, by decide, by decide, by decide, by decide,
    (EndsInAcronymOrNum_iff exampleMakeLowerCase [] "Rte5".data (Or.inl rfl) (by decide)).1,
    (EndsInAcronymOrNum_iff exampleMakeLowerCase [] "ABC".data (Or.inl rfl)
      (by decide)).2.1 (by decide),
    (EndsInAcronymOrNum_iff exampleMakeLowerCase [] "M5".data (Or.inl rfl)
      (by decide)).2.1 (by decide),
    (EndsInAcronymOrNum_iff exampleMakeLowerCase [] "Rte5".data (Or.inl rfl)
      (by decide)).2.2.1 (by decide),
    (EndsInAcronymOrNum_iff exampleMakeLowerCase [] "Rte3".data (Or.inl rfl)
      (by decide)).2.2.2 ⟨'e', by decide, by decide, by decide⟩,
    by decide, by decide, by decide, by decide⟩

/-! ## Searching the arrays of names -/

theorem isPrefixOf_length_le : ∀ (a b : List Char), a.isPrefixOf b = true → a.length ≤ b.length
  | [], _, _ => by simp
  | _ :: _, [], h => by simp [List.isPrefixOf] at h
  | x :: xs, y :: ys, h => by
    simp only [List.isPrefixOf, Bool.and_eq_true] at h
    have := isPrefixOf_length_le xs ys h.2
    simp only [List.length_cons]
    omega

theorem isPrefixOf_same_length : ∀ (a b : List Char), a.length = b.length →
    (a.isPrefixOf b = true ↔ a = b)
  | [], [], _ => by simp
  | [], _ :: _, h => by simp at h
  | _ :: _, [], h => by simp at h
  | x :: xs, y :: ys, h => by
    simp only [List.length_cons, Nat.add_right_cancel_iff] at h
    simp only [List.isPrefixOf, Bool.and_eq_true, beq_iff_eq, List.cons.injEq,
      isPrefixOf_same_length xs ys h]

theorem stringFind_short : ∀ (needle item : List Char), needle.length < item.length →
    stringFind needle item = false
  | [], item, h => by
    cases item with
    | nil => simp at h
    | cons _ _ => rfl
  | c :: rest, item, h => by
    simp only [stringFind, Bool.or_eq_false_iff]
    constructor
    · by_contra hp
      have := isPrefixOf_length_le item (c :: rest) (by simpa using hp)
      omega
    · exact stringFind_short rest item (by simp only [List.length_cons] at h; omega)

theorem stringFind_same_length (needle item : List Char) (h : needle.length = item.length) :
    stringFind needle item = true ↔ needle = item := by
  cases needle with
  | nil =>
    cases item with
    | nil => simp [stringFind]
    | cons _ _ => simp at h
  | cons c rest =>
    have hshort := stringFind_short rest item (by simp only [List.length_cons] at h; omega)
    simp only [stringFind, hshort, Bool.or_false]
    rw [isPrefixOf_same_length item (c :: rest) h.symm]
    exact eq_comm

theorem FindInStrArrayFrom_eq_neg_one (needle : String) :
    ∀ (haystack : List String) (start : Int), 0 ≤ start →
      (FindInStrArrayFrom needle haystack start = -1 ↔
        ∀ item ∈ haystack, stringFind needle.data item.data = false) := by
  intro haystack
  induction haystack with
  | nil => intro start _; simp [FindInStrArrayFrom]
  | cons item rest ih =>
    intro start hstart
    by_cases hfind : stringFind needle.data item.data = true
    · simp only [FindInStrArrayFrom, hfind, if_true, List.mem_cons, forall_eq_or_imp]
      constructor
      · intro h; omega
      · intro h; simp [hfind] at h
    · have hfalse : stringFind needle.data item.data = false := by simpa using hfind
      simp only [FindInStrArrayFrom, hfalse, Bool.false_eq_true, if_false, List.mem_cons,
        forall_eq_or_imp, true_and]
      exact ih (start + 1) (by omega)

theorem FindInStrArray_eq_neg_one (haystack : List String) (needle : String) :
    FindInStrArray haystack needle = -1 ↔
      ∀ item ∈ haystack, stringFind needle.data item.data = false :=
  FindInStrArrayFrom_eq_neg_one needle haystack 0 (le_refl _)

theorem FindInStrArray_ne_neg_one (haystack : List String) (needle : String) :
    FindInStrArray haystack needle ≠ -1 ↔
      ∃ item ∈ haystack, stringFind needle.data item.data = true := by
  rw [Ne, FindInStrArray_eq_neg_one]
  simp

theorem FindInStrArray_of_short (haystack : List String) (needle : String) (len : Nat)
    (hitems : ∀ item ∈ haystack, item.data.length = len) (hneedle : needle.data.length < len) :
    FindInStrArray haystack needle = -1 := by
  rw [FindInStrArray_eq_neg_one]
  intro item hitem
  exact stringFind_short _ _ (by rw [hitems item hitem]; exact hneedle)

theorem FindInStrArray_same_length (haystack : List String) (needle : String) (len : Nat)
    (hitems : ∀ item ∈ haystack, item.data.length = len) (hneedle : needle.data.length = len) :
    FindInStrArray haystack needle ≠ -1 ↔ needle ∈ haystack := by
  rw [FindInStrArray_ne_neg_one]
  constructor
  · rintro ⟨item, hitem, hfind⟩
    have := (stringFind_same_length _ _ (by rw [hitems item hitem, hneedle])).mp hfind
    have heq : needle = item := String.ext this
    rw [heq]
    exact hitem
  · intro hmem
    exact ⟨needle, hmem, (stringFind_same_length _ _ rfl).mpr rfl⟩

/-! ## Acronym and number path -/

theorem length_le_utf8ByteSize (s : String) : s.data.length ≤ s.utf8ByteSize := by
  obtain ⟨l⟩ := s
  induction l with
  | nil => simp [String.utf8ByteSize, String.utf8ByteSize.go]
  | cons c rest ih =>
    have hpos := Char.utf8Size_pos c
    simp only [String.utf8ByteSize, String.utf8ByteSize.go, List.length_cons] at ih ⊢
    omega

theorem Substring_length_le (l : List Char) (pos : Int) (len : Nat) :
    (Substring l pos len).length ≤ l.length - pos.toNat := by
  unfold Substring
  split_ifs
  · simp
  · simp only [List.length_take, List.length_drop]
    omega

theorem all_length_one_frontNames : ∀ item ∈ frontNames, item.data.length = 1 := by decide

theorem all_length_one_backNames : ∀ item ∈ backNames, item.data.length = 1 := by decide

theorem all_length_two_specialCaseFront : ∀ item ∈ specialCaseFront, item.data.length = 2 := by
  decide

theorem all_length_two_specialCaseBack : ∀ item ∈ specialCaseBack, item.data.length = 2 := by
  decide

theorem acronymsAndNumbersAt_beyond (l : List Char) (i : Nat) (h : l.length ≤ i) :
    acronymsAndNumbersAt l i = none := by
  have h1 : Substring l (i : Int) 1 = [] := Substring_beyond l i 1 h
  have h2 : (Substring l ((i : Int) - 1) 2).length < 2 := by
    have := Substring_length_le l ((i : Int) - 1) 2
    omega
  have h3 : (Substring l ((i : Int) - 2) 3).length < 3 := by
    have := Substring_length_le l ((i : Int) - 2) 3
    omega
  have hf2 := FindInStrArray_of_short specialCaseFront
    (String.mk (Substring l ((i : Int) - 1) 2)) 2 all_length_two_specialCaseFront h2
  have hb2 := FindInStrArray_of_short specialCaseBack
    (String.mk (Substring l ((i : Int) - 1) 2)) 2 all_length_two_specialCaseBack h2
  have hf1 := FindInStrArray_of_short frontNames (String.mk []) 1 all_length_one_frontNames
    (by simp)
  have hb1 := FindInStrArray_of_short backNames (String.mk []) 1 all_length_one_backNames
    (by simp)
  have h100 : String.mk (Substring l ((i : Int) - 2) 3) ≠ "100" := by
    intro heq
    have hlen3 : (Substring l ((i : Int) - 2) 3).length = 3 := by
      have := congrArg (fun s => s.data.length) heq
      simpa using this
    omega
  have hsp : String.mk ([] : List Char) ≠ " " := by decide
  simp only [acronymsAndNumbersAt, h1, hf2, hb2, hf1, hb1, h100, hsp, ne_eq, not_true_eq_false,
    if_false]

theorem acronymsAndNumbersLoop_beyond (l : List Char) :
    ∀ extra : Nat, acronymsAndNumbersLoop l (l.length + extra) =
      acronymsAndNumbersLoop l l.length := by
  intro extra
  induction extra with
  | zero => rfl
  | succ k ih =>
    rw [← Nat.add_assoc]
    simp only [acronymsAndNumbersLoop, acronymsAndNumbersAt_beyond l (l.length + k) (by omega)]
    exact ih

theorem CategorizeHungarianAcronymsAndNumbers_eq (s : String) :
    CategorizeHungarianAcronymsAndNumbers s = acronymsAndNumbersLoop s.data s.data.length := by
  have hle := length_le_utf8ByteSize s
  obtain ⟨extra, hextra⟩ := Nat.exists_eq_add_of_le hle
  rw [CategorizeHungarianAcronymsAndNumbers, hextra]
  exact acronymsAndNumbersLoop_beyond s.data extra

theorem Substring_append (pre rest : List Char) (pos : Int) (len : Nat)
    (hpos : pos = (pre.length : Int)) :
    Substring (pre ++ rest) pos len = rest.take len := by
  subst hpos
  simp [Substring]

theorem acronymsAndNumbers_special_front (pre : List Char) (x y : Char)
    (h : String.mk [x, y] ∈ specialCaseFront) :
    CategorizeHungarianAcronymsAndNumbers (String.mk (pre ++ [x, y])) = 1 := by
  rw [CategorizeHungarianAcronymsAndNumbers_eq]
  have hlen : (pre ++ [x, y]).length = (pre.length + 1) + 1 := by simp
  have htwo : Substring (pre ++ [x, y]) (((pre.length + 1 : Nat) : Int) - 1) 2 = [x, y] :=
    Substring_append pre [x, y] _ 2 (by push_cast; omega)
  have hfind : FindInStrArray specialCaseFront (String.mk [x, y]) ≠ -1 :=
    (FindInStrArray_same_length specialCaseFront (String.mk [x, y]) 2
      all_length_two_specialCaseFront rfl).mpr h
  simp only [hlen, acronymsAndNumbersLoop, acronymsAndNumbersAt, htwo]
  rw [if_pos hfind]

theorem acronymsAndNumbers_special_back (pre : List Char) (x y : Char)
    (hfront : String.mk [x, y] ∉ specialCaseFront)
    (h : String.mk [x, y] ∈ specialCaseBack) :
    CategorizeHungarianAcronymsAndNumbers (String.mk (pre ++ [x, y])) = 2 := by
  rw [CategorizeHungarianAcronymsAndNumbers_eq]
  have hlen : (pre ++ [x, y]).length = (pre.length + 1) + 1 := by simp
  have htwo : Substring (pre ++ [x, y]) (((pre.length + 1 : Nat) : Int) - 1) 2 = [x, y] :=
    Substring_append pre [x, y] _ 2 (by push_cast; omega)
  have hnot : ¬ FindInStrArray specialCaseFront (String.mk [x, y]) ≠ -1 := fun hf =>
    hfront ((FindInStrArray_same_length specialCaseFront (String.mk [x, y]) 2
      all_length_two_specialCaseFront rfl).mp hf)
  have hfind : FindInStrArray specialCaseBack (String.mk [x, y]) ≠ -1 :=
    (FindInStrArray_same_length specialCaseBack (String.mk [x, y]) 2
      all_length_two_specialCaseBack rfl).mpr h
  simp only [hlen, acronymsAndNumbersLoop, acronymsAndNumbersAt, htwo]
  rw [if_neg hnot, if_pos hfind]

theorem acronymsAndNumbers_hundred (pre : List Char) :
    CategorizeHungarianAcronymsAndNumbers (String.mk (pre ++ ['1', '0', '0'])) = 2 := by
  rw [CategorizeHungarianAcronymsAndNumbers_eq]
  have hlen : (pre ++ ['1', '0', '0']).length = (pre.length + 2) + 1 := by simp
  have htwo : Substring (pre ++ ['1', '0', '0']) (((pre.length + 2 : Nat) : Int) - 1) 2
      = ['0', '0'] := by
    have := Substring_append (pre ++ ['1']) ['0', '0'] (((pre.length + 2 : Nat) : Int) - 1) 2
      (by push_cast; simp; omega)
    simpa [List.append_assoc] using this
  have hthree : Substring (pre ++ ['1', '0', '0']) (((pre.length + 2 : Nat) : Int) - 2) 3
      = ['1', '0', '0'] :=
    Substring_append pre ['1', '0', '0'] _ 3 (by push_cast; omega)
  have hnf : ¬ FindInStrArray specialCaseFront (String.mk ['0', '0']) ≠ -1 := by decide
  have hnb : ¬ FindInStrArray specialCaseBack (String.mk ['0', '0']) ≠ -1 := by decide
  have h100 : String.mk ['1', '0', '0'] = "100" := by decide
  rw [hlen]
  unfold acronymsAndNumbersLoop acronymsAndNumbersAt
  rw [htwo, hthree, if_neg hnf, if_neg hnb, if_pos h100]

theorem acronymsAndNumbers_last_char (pre : List Char) (c : Char)
    (hno2 : ∀ two ∈ specialCaseFront ++ specialCaseBack, ¬ two.data <:+ pre ++ [c])
    (hno3 : ¬ "100".data <:+ pre ++ [c]) :
    (String.mk [c] ∈ frontNames →
      CategorizeHungarianAcronymsAndNumbers (String.mk (pre ++ [c])) = 1) ∧
    (String.mk [c] ∉ frontNames → String.mk [c] ∈ backNames →
      CategorizeHungarianAcronymsAndNumbers (String.mk (pre ++ [c])) = 2) := by
  rw [CategorizeHungarianAcronymsAndNumbers_eq]
  have hlen : (pre ++ [c]).length = pre.length + 1 := by simp
  have hone : Substring (pre ++ [c]) ((pre.length : Nat) : Int) 1 = [c] :=
    Substring_at pre [] c
  -- the two and three characters that end at the last position
  have htwo : FindInStrArray specialCaseFront
        (String.mk (Substring (pre ++ [c]) (((pre.length : Nat) : Int) - 1) 2)) = -1 ∧
      FindInStrArray specialCaseBack
        (String.mk (Substring (pre ++ [c]) (((pre.length : Nat) : Int) - 1) 2)) = -1 := by
    rcases List.eq_nil_or_concat pre with hnil | ⟨p, b, hpb⟩
    · subst hnil
      have hsub : Substring ([] ++ [c]) ((([] : List Char).length : Nat) - 1 : Int) 2 = [] := by
        simp [Substring]
      rw [hsub]
      constructor <;> decide
    · subst hpb
      have hsub : Substring (p.concat b ++ [c]) (((p.concat b).length : Nat) - 1 : Int) 2
          = [b, c] := by
        have := Substring_append p [b, c] (((p.concat b).length : Nat) - 1 : Int) 2
          (by simp)
        simpa using this
      rw [hsub]
      constructor
      · by_contra hne
        have hmem := (FindInStrArray_same_length specialCaseFront (String.mk [b, c]) 2
          all_length_two_specialCaseFront rfl).mp hne
        exact hno2 _ (List.mem_append_left _ hmem) ⟨p, by simp⟩
      · by_contra hne
        have hmem := (FindInStrArray_same_length specialCaseBack (String.mk [b, c]) 2
          all_length_two_specialCaseBack rfl).mp hne
        exact hno2 _ (List.mem_append_right _ hmem) ⟨p, by simp⟩
  have hthree : String.mk (Substring (pre ++ [c]) (((pre.length : Nat) : Int) - 2) 3)
      ≠ "100" := by
    intro heq
    have hdata : Substring (pre ++ [c]) (((pre.length : Nat) : Int) - 2) 3 = "100".data :=
      congrArg String.data heq
    have hlen3 : (Substring (pre ++ [c]) (((pre.length : Nat) : Int) - 2) 3).length = 3 := by
      rw [hdata]; decide
    apply hno3
    rw [← hdata]
    unfold Substring at hlen3 ⊢
    split_ifs at hlen3 ⊢ with hneg
    · simp at hlen3
    · have hdrop : (List.drop ((pre.length : Int) - 2).toNat (pre ++ [c])).length ≤ 3 := by
        simp only [List.length_drop, List.length_append, List.length_singleton]
        omega
      rw [List.take_of_length_le hdrop]
      exact List.drop_suffix _ _
  simp only [hlen, acronymsAndNumbersLoop, acronymsAndNumbersAt, hone, htwo.1, htwo.2, hthree,
    ne_eq, not_true_eq_false, if_false]
  constructor
  · intro hfront
    have hfind := (FindInStrArray_same_length frontNames (String.mk [c]) 1
      all_length_one_frontNames rfl).mpr hfront
    rw [if_pos hfind]
  · intro hnotfront hback
    have hnot : ¬ FindInStrArray frontNames (String.mk [c]) ≠ -1 := fun hf =>
      hnotfront ((FindInStrArray_same_length frontNames (String.mk [c]) 1
        all_length_one_frontNames rfl).mp hf)
    have hfind := (FindInStrArray_same_length backNames (String.mk [c]) 1
      all_length_one_backNames rfl).mpr hback
    rw [if_neg hnot, if_pos hfind]

/-- C16. Acronym and number path: a phrase that ends in "10", "40", "50", "70" or "90" is
front (1), one that ends in "20", "30", "60", "80" or "100" is back (2), and a phrase with
none of these endings has the class of its last character per the one-character arrays
`frontNames` and `backNames`. -/
theorem CategorizeHungarianAcronymsAndNumbers_endings (pre : List Char) :
    (∀ two ∈ specialCaseFront,
      CategorizeHungarianAcronymsAndNumbers (String.mk (pre ++ two.data)) = 1) ∧
    (∀ two ∈ specialCaseBack,
      CategorizeHungarianAcronymsAndNumbers (String.mk (pre ++ two.data)) = 2) ∧
    CategorizeHungarianAcronymsAndNumbers (String.mk (pre ++ "100".data)) = 2 ∧
    (∀ c : Char,
      (∀ two ∈ specialCaseFront ++ specialCaseBack, ¬ two.data <:+ pre ++ [c]) →
      ¬ "100".data <:+ pre ++ [c] →
      (String.mk [c] ∈ frontNames →
        CategorizeHungarianAcronymsAndNumbers (String.mk (pre ++ [c])) = 1) ∧
      (String.mk [c] ∈ backNames →
        CategorizeHungarianAcronymsAndNumbers (String.mk (pre ++ [c])) = 2)) := by
  refine ⟨?_, ?_, acronymsAndNumbers_hundred pre, ?_⟩
  · intro two htwo
    simp only [specialCaseFront, List.mem_cons, List.mem_singleton, List.not_mem_nil,
      or_false] at htwo
    rcases htwo with rfl | rfl | rfl | rfl | rfl
    · exact acronymsAndNumbers_special_front pre '1' '0' (by decide)
    · exact acronymsAndNumbers_special_front pre '4' '0' (by decide)
    · exact acronymsAndNumbers_special_front pre '5' '0' (by decide)
    · exact acronymsAndNumbers_special_front pre '7' '0' (by decide)
    · exact acronymsAndNumbers_special_front pre '9' '0' (by decide)
  · intro two htwo
    simp only [specialCaseBack, List.mem_cons, List.mem_singleton, List.not_mem_nil,
      or_false] at htwo
    rcases htwo with rfl | rfl | rfl | rfl
    · exact acronymsAndNumbers_special_back pre '2' '0' (by decide) (by decide)
    · exact acronymsAndNumbers_special_back pre '3' '0' (by decide) (by decide)
    · exact acronymsAndNumbers_special_back pre '6' '0' (by decide) (by decide)
    · exact acronymsAndNumbers_special_back pre '8' '0' (by decide) (by decide)
  · intro c hno2 hno3
    have hlast := acronymsAndNumbers_last_char pre c hno2 hno3
    refine ⟨hlast.1, fun hback => hlast.2 ?_ hback⟩
    intro hfront
    have hb : c ∈ ['A', 'Á', 'H', 'I', 'Í', 'K', 'O', 'Ó', 'U', 'Ű', '0', '3', '6', '8'] := by
      have : ∃ item ∈ backNames, item.data = [c] := ⟨_, hback, rfl⟩
      obtain ⟨item, hitem, hdata⟩ := this
      simp only [backNames, List.mem_cons, List.mem_singleton, List.not_mem_nil,
        or_false] at hitem
      rcases hitem with rfl | rfl | rfl | rfl | rfl | rfl | rfl | rfl | rfl | rfl | rfl | rfl |
        rfl | rfl <;> (obtain rfl := (List.cons.inj hdata).1; decide)
    simp only [List.mem_cons, List.mem_singleton, List.not_mem_nil, or_false] at hb
    rcases hb with rfl | rfl | rfl | rfl | rfl | rfl | rfl | rfl | rfl | rfl | rfl | rfl |
      rfl | rfl <;> exact absurd hfront (by decide)

/-- C16 (witness). A phrase that ends in "50" is front although "0" alone is back, and
"M5" is front. -/
theorem CategorizeHungarianAcronymsAndNumbers_endings_witness :
    "50" ∈ specialCaseFront ∧
    CategorizeHungarianAcronymsAndNumbers (String.mk ("M".data ++ "50".data)) = 1 ∧
    CategorizeHungarianAcronymsAndNumbers "0" = 2 ∧
    CategorizeHungarianAcronymsAndNumbers "M5" = 1 :=
  ⟨by decide,
    (CategorizeHungarianAcronymsAndNumbers_endings "M".data).1 "50" (by decide),
    by decide, by decide⟩

/-! ## Word path of the categorizer -/

theorem all_length_one_front : ∀ item ∈ front, item.data.length = 1 := by decide

theorem all_length_one_back : ∀ item ∈ back, item.data.length = 1 := by decide

theorem all_length_one_indeterminate : ∀ item ∈ indeterminate, item.data.length = 1 := by
  decide

theorem lastWordVowelsLoop_beyond (L : String → String) (hempty : L "" = "") (s : String)
    (found : Bool) :
    ∀ extra : Nat, lastWordVowelsLoop L s found (s.data.length + extra) =
      lastWordVowelsLoop L s found s.data.length := by
  intro extra
  induction extra with
  | zero => rfl
  | succ k ih =>
    rw [← Nat.add_assoc]
    have h1 : Substring s.data ((s.data.length + k : Nat) : Int) 1 = [] :=
      Substring_beyond s.data (s.data.length + k) 1 (by omega)
    have hmk : String.mk ([] : List Char) = "" := rfl
    have hf : ¬ FindInStrArray front "" ≠ -1 := by decide
    have hb : ¬ FindInStrArray back "" ≠ -1 := by decide
    have hi : ¬ FindInStrArray indeterminate "" ≠ -1 := by decide
    have hsp : ¬ ("" : String) = " " := by decide
    simp only [lastWordVowelsLoop, h1, hmk, hempty]
    rw [if_neg hf, if_neg hb, if_neg hi, if_neg (fun h => hsp h.1), if_neg (fun h => hsp h.1)]
    exact ih

theorem lastWordVowelsLoop_scan (L : String → String) (s : String) (a : List Char) :
    ∀ (mid b : List Char), s.data = a ++ mid ++ b →
      (∀ c ∈ mid, c ≠ ' ' ∧ FindInStrArray front (L (String.mk [c])) = -1 ∧
        FindInStrArray back (L (String.mk [c])) = -1) →
      ∀ found, ∃ found',
        lastWordVowelsLoop L s found (a.length + mid.length) =
          lastWordVowelsLoop L s found' a.length := by
  intro mid
  induction mid using List.reverseRecOn with
  | nil => intro b _ _ found; exact ⟨found, rfl⟩
  | append_singleton m c ih =>
    intro b hs hmid found
    have hc := hmid c (by simp)
    have h1 : Substring s.data ((a.length + m.length : Nat) : Int) 1 = [c] := by
      rw [hs]
      have := Substring_at (a ++ m) b c
      simpa [List.append_assoc] using this
    have hnsp : ¬ String.mk [c] = " " := fun h => hc.1 ((mk_singleton_eq_space c).mp h)
    have hlen : a.length + (m ++ [c]).length = (a.length + m.length) + 1 := by
      simp only [List.length_append, List.length_singleton]; omega
    rw [hlen]
    simp only [lastWordVowelsLoop, h1, hc.2.1, hc.2.2, ne_eq, not_true_eq_false, if_false]
    rw [if_neg (fun h => hnsp h.1), if_neg (fun h => hnsp h.1)]
    exact ih (c :: b) (by rw [hs]; simp) (fun x hx => hmid x (by simp [hx])) _

theorem lastWordVowelsLoop_at (L : String → String) (s : String) (pre rest : List Char)
    (v : Char) (hs : s.data = pre ++ v :: rest) (found : Bool) :
    (FindInStrArray front (L (String.mk [v])) ≠ -1 →
      lastWordVowelsLoop L s found (pre.length + 1) = 1) ∧
    (FindInStrArray front (L (String.mk [v])) = -1 →
      FindInStrArray back (L (String.mk [v])) ≠ -1 →
      lastWordVowelsLoop L s found (pre.length + 1) = 2) := by
  have h1 : Substring s.data ((pre.length : Nat) : Int) 1 = [v] := by
    rw [hs]
    exact Substring_at pre rest v
  constructor
  · intro hf
    simp only [lastWordVowelsLoop, h1]
    rw [if_pos hf]
  · intro hf hb
    simp only [lastWordVowelsLoop, h1]
    rw [if_neg (by simp [hf]), if_pos hb]

theorem CategorizeHungarianLastWordVowels_word (L : String → String) (hempty : L "" = "")
    (pre suf : List Char) (v : Char)
    (hword : EndsInAcronymOrNum L (pre ++ v :: suf) = false)
    (hsuf : ∀ c ∈ suf, c ≠ ' ' ∧ FindInStrArray front (L (String.mk [c])) = -1 ∧
      FindInStrArray back (L (String.mk [c])) = -1) :
    (FindInStrArray front (L (String.mk [v])) ≠ -1 →
      CategorizeHungarianLastWordVowels L (String.mk (pre ++ v :: suf)) = 1) ∧
    (FindInStrArray front (L (String.mk [v])) = -1 →
      FindInStrArray back (L (String.mk [v])) ≠ -1 →
      CategorizeHungarianLastWordVowels L (String.mk (pre ++ v :: suf)) = 2) := by
  have hle := length_le_utf8ByteSize (String.mk (pre ++ v :: suf))
  obtain ⟨extra, hextra⟩ := Nat.exists_eq_add_of_le hle
  have hbeyond := lastWordVowelsLoop_beyond L hempty (String.mk (pre ++ v :: suf)) false extra
  obtain ⟨found', hscan⟩ := lastWordVowelsLoop_scan L (String.mk (pre ++ v :: suf))
    (pre ++ [v]) suf [] (by simp) hsuf false
  have hat := lastWordVowelsLoop_at L (String.mk (pre ++ v :: suf)) pre suf v rfl found'
  have hlen : (String.mk (pre ++ v :: suf)).data.length = (pre ++ [v]).length + suf.length := by
    simp only [List.length_append, List.length_cons, List.length_singleton, List.length_nil]
    omega
  have hlen2 : (pre ++ [v]).length = pre.length + 1 := by simp
  have hcat : CategorizeHungarianLastWordVowels L (String.mk (pre ++ v :: suf)) =
      lastWordVowelsLoop L (String.mk (pre ++ v :: suf)) found' (pre.length + 1) := by
    unfold CategorizeHungarianLastWordVowels
    simp only [hword, Bool.false_eq_true, if_false]
    rw [hextra, hbeyond, hlen, hscan, hlen2]
  rw [hcat]
  exact hat

theorem FindInStrArray_singleton (haystack : List String)
    (hitems : ∀ item ∈ haystack, item.data.length = 1) (d : Char) :
    FindInStrArray haystack (String.mk [d]) ≠ -1 ↔ String.mk [d] ∈ haystack :=
  FindInStrArray_same_length haystack (String.mk [d]) 1 hitems rfl

theorem front_back_disjoint (d : Char) (hb : String.mk [d] ∈ back) :
    String.mk [d] ∉ front := by
  intro hf
  have hd : d ∈ ['a', 'á', 'o', 'ó', 'u', 'ú'] := by
    have : ∃ item ∈ back, item.data = [d] := ⟨_, hb, rfl⟩
    obtain ⟨item, hitem, hdata⟩ := this
    simp only [back, List.mem_cons, List.mem_singleton, List.not_mem_nil, or_false] at hitem
    rcases hitem with rfl | rfl | rfl | rfl | rfl | rfl <;>
      (obtain rfl := (List.cons.inj hdata).1; decide)
  simp only [List.mem_cons, List.mem_singleton, List.not_mem_nil, or_false] at hd
  rcases hd with rfl | rfl | rfl | rfl | rfl | rfl <;> exact absurd hf (by decide)

theorem vowel_not_digit_nor_space (v : Char)
    (hv : String.mk [v] ∈ back ∨ String.mk [v] ∈ front) : v.isDigit = false ∧ v ≠ ' ' := by
  have hd : v ∈ ['a', 'á', 'o', 'ó', 'u', 'ú', 'e', 'é', 'ö', 'ő', 'ü', 'ű'] := by
    rcases hv with hb | hf
    · have : ∃ item ∈ back, item.data = [v] := ⟨_, hb, rfl⟩
      obtain ⟨item, hitem, hdata⟩ := this
      simp only [back, List.mem_cons, List.mem_singleton, List.not_mem_nil, or_false] at hitem
      rcases hitem with rfl | rfl | rfl | rfl | rfl | rfl <;>
        (obtain rfl := (List.cons.inj hdata).1; decide)
    · have : ∃ item ∈ front, item.data = [v] := ⟨_, hf, rfl⟩
      obtain ⟨item, hitem, hdata⟩ := this
      simp only [front, List.mem_cons, List.mem_singleton, List.not_mem_nil, or_false] at hitem
      rcases hitem with rfl | rfl | rfl | rfl | rfl | rfl <;>
        (obtain rfl := (List.cons.inj hdata).1; decide)
  simp only [List.mem_cons, List.mem_singleton, List.not_mem_nil, or_false] at hd
  rcases hd with rfl | rfl | rfl | rfl | rfl | rfl | rfl | rfl | rfl | rfl | rfl | rfl <;>
    decide

theorem EndsInAcronymOrNum_of_lowercase_last (lower : Char → Char) (pre : List Char) (v : Char)
    (hfixed : lower v = v) (hdigit : v.isDigit = false) (hspace : v ≠ ' ') :
    EndsInAcronymOrNum (MakeLowerCaseBy lower) (pre ++ [v]) = false := by
  have hlen : (pre ++ [v]).length = pre.length + 1 := by simp
  have h1 : Substring (pre ++ [v]) ((pre.length : Nat) : Int) 1 = [v] := Substring_at pre [] v
  have hL : MakeLowerCaseBy lower (String.mk [v]) = String.mk [v] := by
    simp [MakeLowerCaseBy, hfixed]
  have hnsp : ¬ String.mk [v] = " " := fun h => hspace ((mk_singleton_eq_space v).mp h)
  simp only [EndsInAcronymOrNum, hlen, endsInAcronymOrNumLoop, h1, hL]
  rw [if_neg hnsp, if_pos ⟨trivial, by rw [rNum_singleton]; exact hdigit⟩]

/-- C14. Word path of the categorizer, for a lower-casing that works character by
character: a phrase whose last character is a lower-case back vowel (a, á, o, ó, u, ú) is
back (2), one whose last character is a lower-case front vowel (e, é, ö, ő, ü, ű) is front
(1); and when the trailing token is not an acronym or number, the result is the class of
the last character whose lower-case form is a front or back vowel, provided no space
comes after it. -/
theorem CategorizeHungarianLastWordVowels_by_last_vowel (lower : Char → Char)
    (pre suf : List Char) (v : Char) :
    (String.mk [v] ∈ back → lower v = v →
      CategorizeHungarianLastWordVowels (MakeLowerCaseBy lower) (String.mk (pre ++ [v])) = 2) ∧
    (String.mk [v] ∈ front → lower v = v →
      CategorizeHungarianLastWordVowels (MakeLowerCaseBy lower) (String.mk (pre ++ [v])) = 1) ∧
    (EndsInAcronymOrNum (MakeLowerCaseBy lower) (pre ++ v :: suf) = false →
      (∀ c ∈ suf, c ≠ ' ' ∧ String.mk [lower c] ∉ front ∧ String.mk [lower c] ∉ back) →
      (String.mk [lower v] ∈ front →
        CategorizeHungarianLastWordVowels (MakeLowerCaseBy lower)
          (String.mk (pre ++ v :: suf)) = 1) ∧
      (String.mk [lower v] ∈ back →
        CategorizeHungarianLastWordVowels (MakeLowerCaseBy lower)
          (String.mk (pre ++ v :: suf)) = 2)) := by
  have hempty : MakeLowerCaseBy lower "" = "" := rfl
  have hL : ∀ c, MakeLowerCaseBy lower (String.mk [c]) = String.mk [lower c] := fun _ => rfl
  have hgeneral : ∀ suf' : List Char,
      EndsInAcronymOrNum (MakeLowerCaseBy lower) (pre ++ v :: suf') = false →
      (∀ c ∈ suf', c ≠ ' ' ∧ String.mk [lower c] ∉ front ∧ String.mk [lower c] ∉ back) →
      (String.mk [lower v] ∈ front →
        CategorizeHungarianLastWordVowels (MakeLowerCaseBy lower)
          (String.mk (pre ++ v :: suf')) = 1) ∧
      (String.mk [lower v] ∈ back →
        CategorizeHungarianLastWordVowels (MakeLowerCaseBy lower)
          (String.mk (pre ++ v :: suf')) = 2) := by
    intro suf' hword hsuf
    have hsuf2 : ∀ c ∈ suf', c ≠ ' ' ∧
        FindInStrArray front (MakeLowerCaseBy lower (String.mk [c])) = -1 ∧
        FindInStrArray back (MakeLowerCaseBy lower (String.mk [c])) = -1 := by
      intro c hc
      obtain ⟨h1, h2, h3⟩ := hsuf c hc
      refine ⟨h1, ?_, ?_⟩
      · by_contra hne
        exact h2 ((FindInStrArray_singleton front all_length_one_front (lower c)).mp
          (by rw [← hL]; exact hne))
      · by_contra hne
        exact h3 ((FindInStrArray_singleton back all_length_one_back (lower c)).mp
          (by rw [← hL]; exact hne))
    have hcore := CategorizeHungarianLastWordVowels_word (MakeLowerCaseBy lower) hempty pre suf'
      v hword hsuf2
    constructor
    · intro hf
      exact hcore.1 (by
        rw [hL]; exact (FindInStrArray_singleton front all_length_one_front (lower v)).mpr hf)
    · intro hb
      refine hcore.2 ?_ (by
        rw [hL]; exact (FindInStrArray_singleton back all_length_one_back (lower v)).mpr hb)
      by_contra hne
      exact front_back_disjoint (lower v) hb
        ((FindInStrArray_singleton front all_length_one_front (lower v)).mp
          (by rw [← hL]; exact hne))
  refine ⟨fun hb hfixed => ?_, fun hf hfixed => ?_, hgeneral suf⟩
  · obtain ⟨hdigit, hspace⟩ := vowel_not_digit_nor_space v (Or.inl hb)
    have hword := EndsInAcronymOrNum_of_lowercase_last lower pre v hfixed hdigit hspace
    exact (hgeneral [] hword (by simp)).2 (by rw [hfixed]; exact hb)
  · obtain ⟨hdigit, hspace⟩ := vowel_not_digit_nor_space v (Or.inr hf)
    have hword := EndsInAcronymOrNum_of_lowercase_last lower pre v hfixed hdigit hspace
    exact (hgeneral [] hword (by simp)).1 (by rw [hfixed]; exact hf)

/-- C14 (witness). "alma" ends in the back vowel "a", "kert" has the front vowel "e" before
its last two consonants. -/
theorem CategorizeHungarianLastWordVowels_by_last_vowel_witness :
    String.mk ['a'] ∈ back ∧ Char.toLower 'a' = 'a' ∧
    CategorizeHungarianLastWordVowels (MakeLowerCaseBy Char.toLower) "alma" = 2 ∧
    CategorizeHungarianLastWordVowels (MakeLowerCaseBy Char.toLower) "kert" = 1 :=
  ⟨by decide, by decide,
    (CategorizeHungarianLastWordVowels_by_last_vowel Char.toLower "alm".data [] 'a').1
      (by decide) (by decide),
    ((CategorizeHungarianLastWordVowels_by_last_vowel Char.toLower "k".data "rt".data 'e').2.2
      (by decide) (by decide)).1 (by decide)⟩

/-! ## The categorizer is two-valued -/

theorem ReplaceLast_strip (s old : String) :
    (EndsWith s old = true → s = ReplaceLast s old "" ++ old) ∧
    (EndsWith s old = false → ReplaceLast s old "" = s) := by
  constructor
  · intro h
    have hsuf : old.data <:+ s.data := by
      simpa [EndsWith] using h
    obtain ⟨t, ht⟩ := hsuf
    apply String.ext
    simp only [ReplaceLast, h, if_true, replaceSuffix, String.data_append, List.append_nil]
    rw [← ht]
    simp
  · intro h
    simp [ReplaceLast, h]

theorem ReplaceLast_strip_exists (s old : String) :
    ∃ removed, (removed = "" ∨ removed = old) ∧ s = ReplaceLast s old "" ++ removed := by
  cases h : EndsWith s old
  · exact ⟨"", Or.inl rfl, by rw [(ReplaceLast_strip s old).2 h]; simp⟩
  · exact ⟨old, Or.inr rfl, (ReplaceLast_strip s old).1 h⟩

theorem ReplaceFullStops_of_no_full_stop (s : String)
    (h1 : EndsWith s "." = false) (h2 : EndsWith s "。" = false)
    (h3 : EndsWith s "।" = false) : ReplaceFullStops s = s := by
  unfold ReplaceFullStops
  rw [(ReplaceLast_strip s ".").2 h1, (ReplaceLast_strip s "。").2 h2,
    (ReplaceLast_strip s "।").2 h3]

theorem ReplaceFullStops_strip (s : String) :
    ∃ a b c, (a = "" ∨ a = ".") ∧ (b = "" ∨ b = "。") ∧ (c = "" ∨ c = "।") ∧
      s = ReplaceFullStops s ++ c ++ b ++ a := by
  obtain ⟨a, ha, hsa⟩ := ReplaceLast_strip_exists s "."
  obtain ⟨b, hb, hsb⟩ := ReplaceLast_strip_exists (ReplaceLast s "." "") "。"
  obtain ⟨c, hc, hsc⟩ := ReplaceLast_strip_exists (ReplaceLast (ReplaceLast s "." "") "。" "") "।"
  refine ⟨a, b, c, ha, hb, hc, ?_⟩
  unfold ReplaceFullStops
  rw [← hsc, ← hsb, ← hsa]

theorem HungarianTexts_distStr (L : String → String) (texts : TtsOutCall) :
    (HungarianTexts L texts).distStr = texts.distStr := by
  simp only [HungarianTexts]

/-- C17 (as amended). In the street-name branch the distance text and the direction text
each pass through the three calls that strip a trailing ".", then a trailing "。", then a
trailing "।": the text that reaches the template is the original less at most one
trailing occurrence of each glyph, and a text that ends in none of the three glyphs
reaches the template unchanged. -/
theorem ReplaceFullStops_trailing_only (self : GetTtsText) (ext : Collaborators)
    (n : Notification) (dirKey dirStr distStr streetOut : String) (s : String) :
    (self.ttsOutCall ext n dirKey dirStr distStr streetOut).distStr =
      ReplaceFullStops distStr ∧
    (self.streetTexts n dirKey dirStr distStr streetOut).dirStr =
      ReplaceFullStops
        (if n.m_nextStreetInfo.m_junction_ref ≠ "" ∧ self.GetTextById "take_exit_number" ≠ ""
          then self.GetTextById "take_exit_number"
          else if self.GetTextById (dirKey ++ "_street") ≠ ""
            then self.GetTextById (dirKey ++ "_street")
            else dirStr) ∧
    (∃ a b c, (a = "" ∨ a = ".") ∧ (b = "" ∨ b = "。") ∧ (c = "" ∨ c = "।") ∧
      s = ReplaceFullStops s ++ c ++ b ++ a) ∧
    (EndsWith s "." = false → EndsWith s "。" = false → EndsWith s "।" = false →
      ReplaceFullStops s = s) := by
  refine ⟨?_, ?_, ReplaceFullStops_strip s, ReplaceFullStops_of_no_full_stop s⟩
  · unfold GetTtsText.ttsOutCall
    split_ifs
    · rw [HungarianTexts_distStr]
      rfl
    · rfl
  · by_cases hj : n.m_nextStreetInfo.m_junction_ref = ""
    · simp [GetTtsText.streetTexts, hj]
    · by_cases he : self.GetTextById "take_exit_number" = ""
      · simp [GetTtsText.streetTexts, hj, he]
      · simp [GetTtsText.streetTexts, hj, he]

/-- C17 (counterexample). A distance text that ends in "。." loses two characters on its
way to the template. -/
theorem ReplaceFullStops_stacked_glyphs :
    exampleStackedFullStops.distStr exampleCollaborators exampleLeftIn100OntoMain
      = "In 100 meters。." ∧
    (exampleStackedFullStops.ttsOutCall exampleCollaborators exampleLeftIn100OntoMain
      "make_a_left_turn" "Turn left." "In 100 meters。." "Main St").distStr = "In 100 meters" := by
  decide

/-- C17 (witness). A text with "." in its middle that ends in none of the glyphs. -/
theorem ReplaceFullStops_trailing_only_witness :
    EndsWith "In 1.5 km" "." = false ∧ EndsWith "In 1.5 km" "。" = false ∧
    EndsWith "In 1.5 km" "।" = false ∧ ReplaceFullStops "In 1.5 km" = "In 1.5 km" :=
  ⟨by decide, by decide, by decide,
    (ReplaceFullStops_trailing_only exampleEnglish exampleCollaborators exampleLeftIn100OntoMain
      "make_a_left_turn" "Turn left" "In 100 meters" "Main St" "In 1.5 km").2.2.2
      (by decide) (by decide) (by decide)⟩

/-- C18 (the code at the failing input). In the locale "hu" with the "onto" text "a", the
street phrase "1" gets "az" and the street phrases "10" and "100" keep "a", but the street
phrase "1000" keeps "a" as well: no alternative of `rHun` matches a text that is exactly
"1000". -/
theorem rHun_misses_bare_1000 :
    rHun "1" = true ∧ rHun "5" = true ∧ rHun "10" = false ∧ rHun "100" = false ∧
    rHun "1000" = false ∧ rHun "1000 utca" = true ∧
    FormatFullRoadName exampleCollaborators.GetRoadShields
      exampleLeftOnto1000.m_nextStreetInfo = "1000" ∧
    (exampleHungarian.ttsOutCall exampleCollaborators exampleLeftOnto1 "make_a_left_turn"
      "Forduljon balra" "" "1").ontoStr = "az" ∧
    (exampleHungarian.ttsOutCall exampleCollaborators exampleLeftOnto1000 "make_a_left_turn"
      "Forduljon balra" "" "1000").ontoStr = "a" ∧
    exampleHungarian.GetTurnNotification exampleCollaborators exampleLeftOnto1
      = "Forduljon balra az 1re" ∧
    exampleHungarian.GetTurnNotification exampleCollaborators exampleLeftOnto1000
      = "Forduljon balra a 1000ra" := by
  decide

/-! ## Acronym path against word path on the vowel letters -/

theorem upper_u_acute_is_front (L : String → String) (hupper : L "Ú" ≠ "Ú") :
    CategorizeHungarianLastWordVowels L "Ú" = 1 := by
  have hends : EndsInAcronymOrNum L ([] ++ ['Ú']) = true :=
    (EndsInAcronymOrNum_token L [] (Or.inl rfl) ['Ú'] (by decide)).mpr (by
      intro c hc
      simp only [List.mem_singleton] at hc
      subst hc
      exact Or.inr hupper)
  have hends2 : EndsInAcronymOrNum L "Ú".data = true := hends
  simp only [CategorizeHungarianLastWordVowels, hends2, if_true]
  decide

theorem upper_u_double_acute_is_back (L : String → String) (hupper : L "Ű" ≠ "Ű") :
    CategorizeHungarianLastWordVowels L "Ű" = 2 := by
  have hends : EndsInAcronymOrNum L ([] ++ ['Ű']) = true :=
    (EndsInAcronymOrNum_token L [] (Or.inl rfl) ['Ű'] (by decide)).mpr (by
      intro c hc
      simp only [List.mem_singleton] at hc
      subst hc
      exact Or.inr hupper)
  have hends2 : EndsInAcronymOrNum L "Ű".data = true := hends
  simp only [CategorizeHungarianLastWordVowels, hends2, if_true]
  decide

theorem lower_u_acute_is_back (L : String → String) (hempty : L "" = "")
    (hlower : L "ú" = "ú") : CategorizeHungarianLastWordVowels L "ú" = 2 := by
  have hfixed : L (String.mk ['ú']) = String.mk ['ú'] := hlower
  have hword : EndsInAcronymOrNum L ([] ++ 'ú' :: []) = false := by
    have hiff := EndsInAcronymOrNum_token L [] (Or.inl rfl) ['ú'] (by decide)
    cases hval : EndsInAcronymOrNum L ([] ++ ['ú']) with
    | false => rfl
    | true =>
      rcases hiff.mp hval 'ú' (by simp) with hd | hl
      · exact absurd hd (by decide)
      · exact absurd hfixed hl
  have hcore := (CategorizeHungarianLastWordVowels_word L hempty [] [] 'ú' hword
    (by simp)).2
  exact hcore (by rw [hfixed]; decide) (by rw [hfixed]; decide)

theorem lower_u_double_acute_is_front (L : String → String) (hempty : L "" = "")
    (hlower : L "ű" = "ű") : CategorizeHungarianLastWordVowels L "ű" = 1 := by
  have hfixed : L (String.mk ['ű']) = String.mk ['ű'] := hlower
  have hword : EndsInAcronymOrNum L ([] ++ 'ű' :: []) = false := by
    have hiff := EndsInAcronymOrNum_token L [] (Or.inl rfl) ['ű'] (by decide)
    cases hval : EndsInAcronymOrNum L ([] ++ ['ű']) with
    | false => rfl
    | true =>
      rcases hiff.mp hval 'ű' (by simp) with hd | hl
      · exact absurd hd (by decide)
      · exact absurd hfixed hl
  have hcore := (CategorizeHungarianLastWordVowels_word L hempty [] [] 'ű' hword
    (by simp)).1
  exact hcore (by rw [hfixed]; decide)

/-- C21 (the code at the failing inputs). With a lower-casing that knows the Hungarian
capitals, the phrase "Ú" goes through the acronym and number path and is front (1) while
"ú" is back (2) on the word path, and "Ű" is back (2) while "ű" is front (1); the capital
and the small letter of each of the other twelve vowels get the same class. -/
theorem acronym_path_swaps_u_acute_and_u_double_acute :
    (EndsInAcronymOrNum (MakeLowerCaseBy exampleHungarianLower) "Ú".data = true ∧
      EndsInAcronymOrNum (MakeLowerCaseBy exampleHungarianLower) "ú".data = false ∧
      CategorizeHungarianLastWordVowels (MakeLowerCaseBy exampleHungarianLower) "Ú" = 1 ∧
      CategorizeHungarianLastWordVowels (MakeLowerCaseBy exampleHungarianLower) "ú" = 2) ∧
    (EndsInAcronymOrNum (MakeLowerCaseBy exampleHungarianLower) "Ű".data = true ∧
      EndsInAcronymOrNum (MakeLowerCaseBy exampleHungarianLower) "ű".data = false ∧
      CategorizeHungarianLastWordVowels (MakeLowerCaseBy exampleHungarianLower) "Ű" = 2 ∧
      CategorizeHungarianLastWordVowels (MakeLowerCaseBy exampleHungarianLower) "ű" = 1) ∧
    (∀ pair ∈ [("A", "a"), ("Á", "á"), ("E", "e"), ("É", "é"), ("I", "i"), ("Í", "í"),
        ("O", "o"), ("Ó", "ó"), ("Ö", "ö"), ("Ő", "ő"), ("U", "u"), ("Ü", "ü")],
      EndsInAcronymOrNum (MakeLowerCaseBy exampleHungarianLower) pair.1.data = true ∧
      EndsInAcronymOrNum (MakeLowerCaseBy exampleHungarianLower) pair.2.data = false ∧
      CategorizeHungarianLastWordVowels (MakeLowerCaseBy exampleHungarianLower) pair.1 =
        CategorizeHungarianLastWordVowels (MakeLowerCaseBy exampleHungarianLower) pair.2) := by
  refine ⟨by decide, by decide, ?_⟩
  decide

end sound
end turns
end routing
